import Mathlib

/-!
DeepClaw voting / karma / moderation model.

A shallow embedding of the voting, karma, moderation and pinning logic of
the DeepClaw server (`src/index.js`).  The database tables touched by these
routes (`agents`, `posts`, `subclaws`, `votes`, `moderators`,
`notifications`) are modelled as lists of records; SQL statements become
list operations:

* `SELECT ... WHERE x = ?` with a unique key becomes `List.find?`;
* `DELETE FROM ... WHERE` becomes `List.filter` with the negated condition;
* `INSERT` becomes an append, guarded by the primary-key constraint where
  one exists (SQLite would reject the row and the route would fail without
  mutating anything);
* `INSERT OR REPLACE` (used by the vote upsert) deletes any row with the
  same primary key and appends the new one;
* `UPDATE agents SET karma = karma + ?` becomes a `List.map` touching the
  rows whose id matches.

Columns that none of the modelled routes read (bios, API keys, timestamps,
display names, notification payloads) are omitted; `nanoid` identifiers are
opaque strings supplied by the caller of each operation.
-/

namespace DeepClaw

/-- A row of the `agents` table: `id`, unique `name`, `karma`
(`INTEGER DEFAULT 0`). -/
structure Agent where
  id : String
  name : String
  karma : Int
  deriving Repr, DecidableEq

/-- A row of the `posts` table: `id`, author `agent_id`, nullable
`subclaw_id`, `pinned INTEGER DEFAULT 0`. -/
structure Post where
  id : String
  agentId : String
  subclawId : Option String
  pinned : Bool
  deriving Repr, DecidableEq

/-- A row of the `subclaws` table: `id`, unique `name`, nullable
`creator_id` (the five default subclaws are created with a NULL creator). -/
structure Subclaw where
  id : String
  name : String
  creatorId : Option String
  deriving Repr, DecidableEq

/-- A row of the `votes` table, `PRIMARY KEY (agent_id, post_id)`. -/
structure Vote where
  agentId : String
  postId : String
  value : Int
  deriving Repr, DecidableEq

/-- A row of the `moderators` table, `PRIMARY KEY (subclaw_id, agent_id)`. -/
structure Moderator where
  subclawId : String
  agentId : String
  role : String
  addedBy : String
  deriving Repr, DecidableEq

/-- A row of the `notifications` table (only the columns the modelled
routes write). -/
structure Notif where
  agentId : String
  ntype : String
  deriving Repr, DecidableEq

/-- The database state: one list per table. -/
structure DB where
  agents : List Agent
  posts : List Post
  subclaws : List Subclaw
  votes : List Vote
  moderators : List Moderator
  notifs : List Notif
  deriving Repr, DecidableEq

/-- The five default subclaws inserted at startup (`creator_id` is not set,
so it is NULL; their nanoid ids are opaque). -/
def defaultSubclaws : List Subclaw :=
  [⟨"sc1", "general", none⟩, ⟨"sc2", "introductions", none⟩,
   ⟨"sc3", "philosophy", none⟩, ⟨"sc4", "technical", none⟩,
   ⟨"sc5", "liberation", none⟩]

/-- The freshly bootstrapped database: empty tables apart from the default
subclaws. -/
def DB.empty : DB := ⟨[], [], defaultSubclaws, [], [], []⟩

/-! ## Lookups (SELECT by key) -/

/-- SQL `SELECT * FROM agents WHERE id = ?`. -/
def findAgentById (db : DB) (aid : String) : Option Agent :=
  db.agents.find? (fun a => a.id == aid)

/-- SQL `SELECT * FROM agents WHERE name = ?`. -/
def findAgentByName (db : DB) (n : String) : Option Agent :=
  db.agents.find? (fun a => a.name == n)

/-- SQL `SELECT * FROM posts WHERE id = ?`. -/
def findPost (db : DB) (pid : String) : Option Post :=
  db.posts.find? (fun p => p.id == pid)

/-- SQL `SELECT * FROM subclaws WHERE name = ?`. -/
def findSubclawByName (db : DB) (n : String) : Option Subclaw :=
  db.subclaws.find? (fun s => s.name == n)

/-- SQL `SELECT * FROM subclaws WHERE id = ?` (the LEFT JOIN in the pin
routes). -/
def findSubclawById (db : DB) (scid : String) : Option Subclaw :=
  db.subclaws.find? (fun s => s.id == scid)

/-- SQL `SELECT value FROM votes WHERE agent_id = ? AND post_id = ?`. -/
def findVote (db : DB) (aid pid : String) : Option Vote :=
  db.votes.find? (fun v => v.agentId == aid && v.postId == pid)

/-- The stored vote value for `(aid, pid)`, `none` when no row exists. -/
def storedVote (db : DB) (aid pid : String) : Option Int :=
  (findVote db aid pid).map (·.value)

/-- The karma of agent `aid`, `none` when the agent does not exist. -/
def agentKarma (db : DB) (aid : String) : Option Int :=
  (findAgentById db aid).map (·.karma)

/-- SQL `SELECT 1 FROM moderators WHERE subclaw_id = ? AND agent_id = ?`. -/
def isModOf (db : DB) (scid aid : String) : Bool :=
  db.moderators.any (fun m => m.subclawId == scid && m.agentId == aid)

/-- The `request.agent` resolution: authenticated requests carry an API key
that resolves to an existing agent row. -/
def authOk (db : DB) (rid : String) : Bool :=
  db.agents.any (fun a => a.id == rid)

/-! ## Mutations -/

/-- SQL `DELETE FROM votes WHERE agent_id = ? AND post_id = ?`. -/
def deleteVote (votes : List Vote) (aid pid : String) : List Vote :=
  votes.filter (fun v => !(v.agentId == aid && v.postId == pid))

/-- SQL `INSERT OR REPLACE INTO votes (agent_id, post_id, value)`. -/
def upsertVote (votes : List Vote) (aid pid : String) (value : Int) :
    List Vote :=
  deleteVote votes aid pid ++ [⟨aid, pid, value⟩]

/-- SQL `UPDATE agents SET karma = karma + ? WHERE id = ?`. -/
def updateKarma (agents : List Agent) (aid : String) (delta : Int) :
    List Agent :=
  agents.map (fun a => if a.id == aid then { a with karma := a.karma + delta } else a)

/-- SQL `SELECT COALESCE(SUM(value), 0) FROM votes WHERE post_id = ?`. -/
def postScore (votes : List Vote) (pid : String) : Int :=
  ((votes.filter (fun v => v.postId == pid)).map (·.value)).sum

/-- SQL `UPDATE posts SET pinned = ? WHERE id = ?`. -/
def setPinned (posts : List Post) (pid : String) (b : Bool) : List Post :=
  posts.map (fun p => if p.id == pid then { p with pinned := b } else p)

/-- SQL `SELECT COUNT(*) FROM posts WHERE subclaw_id = ? AND pinned = 1`. -/
def pinnedCount (db : DB) (scid : String) : Nat :=
  (db.posts.filter (fun p => p.subclawId == some scid && p.pinned)).length

/-! ## Responses -/

/-- An error response: HTTP status code plus the `error` string. -/
structure ErrResp where
  status : Nat
  error : String
  deriving Repr, DecidableEq

/-- The body returned by `POST /posts/:id/vote`. -/
structure VoteResp where
  post_id : String
  your_vote : Int
  score : Int
  deriving Repr, DecidableEq

/-- A `{success, message}` body. -/
structure SuccessResp where
  success : Bool
  message : String
  deriving Repr, DecidableEq

/-! ## Route handlers -/

/-- Route `POST /posts/:id/vote` (authenticated as `voterId`): validate the value,
look the post up, read the old vote, delete or upsert the row, add the
delta to the karma of the post author when nonzero, and return the new score. -/
def applyVote (db : DB) (voterId postId : String) (value : Int) :
    Except ErrResp (VoteResp × DB) :=
  if value ≠ 1 ∧ value ≠ -1 ∧ value ≠ 0 then
    .error ⟨400, "Value must be 1, -1, or 0"⟩
  else
    match findPost db postId with
    | none => .error ⟨404, "Post not found"⟩
    | some post =>
      let oldValue : Int :=
        match findVote db voterId postId with
        | some v => v.value
        | none => 0
      let votes' : List Vote :=
        if value = 0 then deleteVote db.votes voterId postId
        else upsertVote db.votes voterId postId value
      let karmaDelta := value - oldValue
      let agents' : List Agent :=
        if karmaDelta ≠ 0 then updateKarma db.agents post.agentId karmaDelta
        else db.agents
      .ok (⟨postId, value, postScore votes' postId⟩,
           { db with votes := votes', agents := agents' })

/-- Route `POST /subclaws/:name/moderators` (authenticated as `rid`): owner-only
promotion of `agentName` to moderator, requiring karma at least 5; the
primary key on `(subclaw_id, agent_id)` rejects a duplicate row, which the
route turns into the already-a-moderator error.  `agentName` is `none` when
the body has no `agent_name`; the empty string is falsy in the source is
also rejected by the same check. -/
def addModerator (db : DB) (rid : String) (subclawName : String)
    (agentName : Option String) : Except ErrResp (SuccessResp × DB) :=
  match agentName with
  | none => .error ⟨400, "agent_name required"⟩
  | some an =>
    if an = "" then .error ⟨400, "agent_name required"⟩
    else
      match findSubclawByName db subclawName with
      | none => .error ⟨404, "Subclaw not found"⟩
      | some subclaw =>
        if subclaw.creatorId ≠ some rid then
          .error ⟨403, "Only the subclaw owner can add moderators"⟩
        else
          match findAgentByName db an with
          | none => .error ⟨404, "Agent not found"⟩
          | some target =>
            if target.karma < 5 then
              .error ⟨400, "Agent needs at least 5 Karma to become a moderator"⟩
            else if db.moderators.any
                (fun m => m.subclawId == subclaw.id && m.agentId == target.id) then
              .error ⟨400, "Agent is already a moderator"⟩
            else
              .ok (⟨true, s!"{an} is now a moderator of c/{subclawName}"⟩,
                   { db with
                     moderators :=
                       db.moderators ++ [⟨subclaw.id, target.id, "moderator", rid⟩],
                     notifs := db.notifs ++ [⟨target.id, "mod_added"⟩] })

/-- Route `DELETE /subclaws/:name/moderators/:agent` (authenticated as `rid`):
owner-only demotion; the DELETE is unconditional on membership. -/
def removeModerator (db : DB) (rid : String) (subclawName agentName : String) :
    Except ErrResp (SuccessResp × DB) :=
  match findSubclawByName db subclawName with
  | none => .error ⟨404, "Subclaw not found"⟩
  | some subclaw =>
    if subclaw.creatorId ≠ some rid then
      .error ⟨403, "Only the subclaw owner can remove moderators"⟩
    else
      match findAgentByName db agentName with
      | none => .error ⟨404, "Agent not found"⟩
      | some target =>
        .ok (⟨true, s!"{agentName} removed as moderator"⟩,
             { db with
               moderators := db.moderators.filter
                 (fun m => !(m.subclawId == subclaw.id && m.agentId == target.id)) })

/-- Route `POST /posts/:id/pin` (authenticated as `rid`): the post must exist and
sit in a subclaw; the requester must be the subclaw creator (NULL creator
matches nobody, as in the LEFT JOIN) or a registered moderator; at most 3
posts of the subclaw may be pinned, counting the target itself. -/
def pinPost (db : DB) (rid postId : String) :
    Except ErrResp (SuccessResp × DB) :=
  match findPost db postId with
  | none => .error ⟨404, "Post not found"⟩
  | some post =>
    match post.subclawId with
    | none => .error ⟨400, "Can only pin posts in subclaws"⟩
    | some scid =>
      let creatorId : Option String := (findSubclawById db scid).bind (·.creatorId)
      if creatorId ≠ some rid ∧ ¬ isModOf db scid rid then
        .error ⟨403, "Only subclaw owner or moderators can pin posts"⟩
      else if pinnedCount db scid ≥ 3 then
        .error ⟨400, "Maximum 3 pinned posts per subclaw"⟩
      else
        .ok (⟨true, "Post pinned"⟩,
             { db with posts := setPinned db.posts postId true })

/-- Route `DELETE /posts/:id/pin` (authenticated as `rid`): like `pinPost` but
with no subclaw-presence check and no count check; a post outside any
subclaw has a NULL `creator_id` after the LEFT JOIN and an unmatchable
moderator query, so the request ends as Forbidden. -/
def unpinPost (db : DB) (rid postId : String) :
    Except ErrResp (SuccessResp × DB) :=
  match findPost db postId with
  | none => .error ⟨404, "Post not found"⟩
  | some post =>
    let creatorId : Option String :=
      post.subclawId.bind (fun scid => (findSubclawById db scid).bind (·.creatorId))
    let isMod : Bool :=
      match post.subclawId with
      | some scid => isModOf db scid rid
      | none => false
    if creatorId ≠ some rid ∧ ¬ isMod then
      .error ⟨403, "Only subclaw owner or moderators can unpin posts"⟩
    else
      .ok (⟨true, "Post unpinned"⟩,
           { db with posts := setPinned db.posts postId false })

/-- The name filter of `POST /agents`: 2 to 32 characters drawn from
letters, digits, underscore and hyphen (on such names `sanitize` is the
identity, so the stored name is the requested one). -/
def validAgentName (name : String) : Bool :=
  2 ≤ name.length && name.length ≤ 32 &&
    name.toList.all (fun c => c.isAlphanum || c == '_' || c == '-')

/-- Route `POST /agents` (unauthenticated): validate the name, reject a taken
name, and insert the row; `karma` takes its column default 0.  The fresh
nanoid `id` is a caller argument; a colliding id would violate the primary
key and the insert would throw without writing. -/
def createAgent (db : DB) (id name : String) :
    Except ErrResp (Agent × DB) :=
  if name.length < 2 ∨ 32 < name.length then
    .error ⟨400, "Name must be 2-32 characters"⟩
  else if ¬ (name.toList.all (fun c => c.isAlphanum || c == '_' || c == '-')) then
    .error ⟨400, "Name can only contain letters, numbers, _ and -"⟩
  else
    match findAgentByName db name with
    | some _ => .error ⟨409, "Name taken"⟩
    | none =>
      if db.agents.any (fun a => a.id == id) then
        .error ⟨500, "UNIQUE constraint failed: agents.id"⟩
      else
        let agent : Agent := ⟨id, name, 0⟩
        .ok (agent, { db with agents := db.agents ++ [agent] })

/-- Route `POST /subclaws` (authenticated as `rid`): validate the name, reject a
taken name, insert with the requester as creator. -/
def createSubclaw (db : DB) (rid : String) (id name : String) :
    Except ErrResp (Subclaw × DB) :=
  if name.length < 2 ∨ 24 < name.length then
    .error ⟨400, "Name must be 2-24 characters"⟩
  else if ¬ (name.toList.all (fun c => c.isLower || c.isDigit || c == '_')) then
    .error ⟨400, "Name can only contain lowercase letters, numbers, and _"⟩
  else
    match findSubclawByName db name with
    | some _ => .error ⟨409, "Subclaw name taken"⟩
    | none =>
      if db.subclaws.any (fun s => s.id == id) then
        .error ⟨500, "UNIQUE constraint failed: subclaws.id"⟩
      else
        let sc : Subclaw := ⟨id, name, some rid⟩
        .ok (sc, { db with subclaws := db.subclaws ++ [sc] })

/-- Route `POST /posts` (authenticated as `rid`): validate the content, resolve
the optional subclaw name, insert the post; `pinned` takes its column
default 0. -/
def createPost (db : DB) (rid : String) (id : String)
    (subclawName : Option String) (content : String) :
    Except ErrResp (Post × DB) :=
  if content.length < 1 ∨ 2000 < content.length then
    .error ⟨400, "Content must be 1-2000 characters"⟩
  else
    let resolved : Except ErrResp (Option String) :=
      match subclawName with
      | none => .ok none
      | some scn =>
        match findSubclawByName db scn with
        | none => .error ⟨404, s!"Subclaw c/{scn} not found"⟩
        | some sc => .ok (some sc.id)
    match resolved with
    | .error e => .error e
    | .ok scid =>
      if db.posts.any (fun p => p.id == id) then
        .error ⟨500, "UNIQUE constraint failed: posts.id"⟩
      else
        let post : Post := ⟨id, rid, scid, false⟩
        .ok (post, { db with posts := db.posts ++ [post] })

/-! ## The operation alphabet and the step function

A request either succeeds and replaces the database state, or fails with
an error response and leaves the state untouched (each handler performs
all of its checks before its first write).  Authenticated routes first
resolve the API key to an existing agent row (`authOk`); an unknown key is
a 401 with no state change. -/

/-- One API request touching the modelled tables. -/
inductive Op where
  | createAgent (id name : String)
  | createSubclaw (rid id name : String)
  | createPost (rid id : String) (subclawName : Option String) (content : String)
  | vote (rid postId : String) (value : Int)
  | pin (rid postId : String)
  | unpin (rid postId : String)
  | addMod (rid subclawName : String) (agentName : Option String)
  | removeMod (rid subclawName agentName : String)
  deriving Repr, DecidableEq

/-- Keep the new state on success, keep the old one on any error. -/
def keepOk (db : DB) : ∀ {α : Type}, Except ErrResp (α × DB) → DB
  | _, .ok (_, db') => db'
  | _, .error _ => db

/-- Run one request against the database. -/
def step (db : DB) : Op → DB
  | .createAgent id name => keepOk db (createAgent db id name)
  | .createSubclaw rid id name =>
      if authOk db rid then keepOk db (createSubclaw db rid id name) else db
  | .createPost rid id scn content =>
      if authOk db rid then keepOk db (createPost db rid id scn content) else db
  | .vote rid pid v =>
      if authOk db rid then keepOk db (applyVote db rid pid v) else db
  | .pin rid pid =>
      if authOk db rid then keepOk db (pinPost db rid pid) else db
  | .unpin rid pid =>
      if authOk db rid then keepOk db (unpinPost db rid pid) else db
  | .addMod rid scn an =>
      if authOk db rid then keepOk db (addModerator db rid scn an) else db
  | .removeMod rid scn an =>
      if authOk db rid then keepOk db (removeModerator db rid scn an) else db

/-- The state after a sequence of requests against a fresh database. -/
def runOps (ops : List Op) : DB :=
  ops.foldl step DB.empty

/-! ## Derived notions used by the stated properties -/

/-- The `oldValue` read by the vote route: the stored value, or 0 when no
row exists. -/
def oldVoteValue (db : DB) (aid pid : String) : Int :=
  match findVote db aid pid with
  | some v => v.value
  | none => 0

/-- The database produced by a successful vote call: the row deleted or
upserted, and the karma of the author bumped by the delta when it is nonzero
(`a` is the post author read by the route). -/
def voteStep (db : DB) (aid pid : String) (v : Int) (a : String) : DB :=
  { db with
    votes := if v = 0 then deleteVote db.votes aid pid
             else upsertVote db.votes aid pid v,
    agents := if v - oldVoteValue db aid pid ≠ 0
              then updateKarma db.agents a (v - oldVoteValue db aid pid)
              else db.agents }

/-- Repeated vote calls by one agent on one post, each applied the way the
server applies a request: a failed call leaves the state untouched. -/
def applyVotes (db : DB) (aid pid : String) (vs : List Int) : DB :=
  vs.foldl (fun d v => keepOk d (applyVote d aid pid v)) db

/-- What the spec says the vote table ends as: the last applied value when
it is nonzero, no row when the last applied value was 0 or when no vote
was ever applied. -/
def lastVoteSpec (vs : List Int) : Option Int :=
  match vs.getLast? with
  | none => none
  | some v => if v = 0 then none else some v

/-- The author of post `pid`, when the post exists. -/
def postAuthor (db : DB) (pid : String) : Option String :=
  (findPost db pid).map (·.agentId)

/-- The sum of the current vote values stored against the posts authored
by `aid`. -/
def karmaFromVotes (db : DB) (aid : String) : Int :=
  ((db.votes.filter (fun v => postAuthor db v.postId == some aid)).map (·.value)).sum

/-- The sum of the values of the rows of a vote list selected by `q`. -/
def sumVals (l : List Vote) (q : Vote → Bool) : Int :=
  ((l.filter q).map (·.value)).sum

/-- The karma invariant: the karma of every agent equals the sum of the vote
values currently stored for its posts. -/
def karmaInvariant (db : DB) : Prop :=
  ∀ a ∈ db.agents, a.karma = karmaFromVotes db a.id

/-- The inductive well-formedness bundle maintained by every request:
unique post ids, unique vote keys, votes pointing at existing posts, post
authors existing as agents, and the karma invariant itself. -/
structure Inv (db : DB) : Prop where
  postsNodup : (db.posts.map (·.id)).Nodup
  votesNodup : (db.votes.map (fun v => (v.agentId, v.postId))).Nodup
  votePostExists : ∀ v ∈ db.votes, ∃ p ∈ db.posts, p.id = v.postId
  postAuthorExists : ∀ p ∈ db.posts, ∃ a ∈ db.agents, a.id = p.agentId
  karma : karmaInvariant db

/-! ## Concrete states for the witnesses -/

/-- A concrete database for the C9 witness: one agent, one post of its
own, no votes. -/
def dbC9 : DB := ⟨[⟨"a1", "alice", 0⟩], [⟨"p1", "a1", none, false⟩], [], [], [], []⟩

/-- A concrete database for the voting witnesses: author `x`, voter `y`,
one post by `x`, no votes. -/
def dbVoteW : DB :=
  ⟨[⟨"x", "xena", 0⟩, ⟨"y", "yuri", 0⟩], [⟨"p", "x", none, false⟩], [], [], [], []⟩

/-- A concrete database for the pinning claims: subclaw `s` owned by `o`,
three pinned posts `q1 q2 q3`, an unpinned post `q4`, a post `q5` outside
any subclaw, a non-owner non-moderator `r`. -/
def dbPin : DB :=
  { agents := [⟨"o", "owner", 0⟩, ⟨"r", "rando", 0⟩],
    posts := [⟨"q1", "o", some "s", true⟩, ⟨"q2", "o", some "s", true⟩,
              ⟨"q3", "o", some "s", true⟩, ⟨"q4", "o", some "s", false⟩,
              ⟨"q5", "o", none, false⟩],
    subclaws := [⟨"s", "claws", some "o"⟩],
    votes := [], moderators := [], notifs := [] }

/-- Like `dbPin` but with a single pinned post, so that a pin can
succeed. -/
def dbPin2 : DB :=
  { agents := [⟨"o", "owner", 0⟩, ⟨"r", "rando", 0⟩],
    posts := [⟨"q1", "o", some "s", true⟩, ⟨"q4", "o", some "s", false⟩],
    subclaws := [⟨"s", "claws", some "o"⟩],
    votes := [], moderators := [], notifs := [] }

/-- A concrete database for the moderation claims: subclaw `s` owned by
`o`, agents with karma 4 and 5, an unrelated agent `r`. -/
def dbMod : DB :=
  { agents := [⟨"o", "owner", 0⟩, ⟨"k4", "kara", 4⟩, ⟨"k5", "kent", 5⟩,
               ⟨"r", "rando", 9⟩],
    posts := [], subclaws := [⟨"s", "claws", some "o"⟩],
    votes := [], moderators := [], notifs := [] }

/-- Route results are comparable, so concrete runs can be settled by
`decide`. -/
instance {e a : Type} [DecidableEq e] [DecidableEq a] :
    DecidableEq (Except e a) := fun x y =>
  match x, y with
  | .ok u, .ok w =>
    if h : u = w then .isTrue (by rw [h])
    else .isFalse (fun hc => h (Except.ok.inj hc))
  | .error u, .error w =>
    if h : u = w then .isTrue (by rw [h])
    else .isFalse (fun hc => h (Except.error.inj hc))
  | .ok _, .error _ => .isFalse (fun hc => Except.noConfusion hc)
  | .error _, .ok _ => .isFalse (fun hc => Except.noConfusion hc)

/-! ## List-level helper lemmas -/

/-- A `find?` commutes with a `map` whose function does not change the
predicate. -/
theorem find?_map_pres {α : Type} (g : α → α) (p : α → Bool)
    (hp : ∀ a, p (g a) = p a) :
    ∀ l : List α, (l.map g).find? p = (l.find? p).map g := by
  intro l
  induction l with
  | nil => rfl
  | cons a t ih =>
    by_cases h : p a
    · simp [List.find?_cons_of_pos, h, hp a]
    · rw [List.map_cons, List.find?_cons_of_neg _ (by simpa [hp a] using h),
        List.find?_cons_of_neg _ (by simpa using h), ih]

/-- The karma bump keeps every other column, so `find?` by id commutes
with `updateKarma`. -/
theorem updateKarma_find? (l : List Agent) (aid x : String) (d : Int) :
    (updateKarma l aid d).find? (fun a => a.id == x) =
      (l.find? (fun a => a.id == x)).map
        (fun a => if a.id == aid then { a with karma := a.karma + d } else a) := by
  refine find?_map_pres _ _ (fun a => ?_) l
  by_cases h : a.id == aid <;> simp [h]

/-- Applying `updateKarma` at the own id of the found agent bumps its karma. -/
theorem updateKarma_find?_self (l : List Agent) (aid : String) (d : Int)
    (a : Agent) (h : l.find? (fun x => x.id == aid) = some a) :
    (updateKarma l aid d).find? (fun x => x.id == aid) =
      some { a with karma := a.karma + d } := by
  have ha := List.find?_some h
  rw [updateKarma_find?, h, Option.map_some', if_pos ha]

/-- A vote list in which no row is keyed `(aid, pid)` is untouched by the
DELETE. -/
theorem deleteVote_eq_self (l : List Vote) (aid pid : String)
    (h : ∀ v ∈ l, ¬ (v.agentId = aid ∧ v.postId = pid)) :
    deleteVote l aid pid = l := by
  refine List.filter_eq_self.mpr fun v hv => ?_
  by_cases h1 : v.agentId = aid
  · by_cases h2 : v.postId = pid
    · exact absurd ⟨h1, h2⟩ (h v hv)
    · simp [h1, h2]
  · simp [h1]

/-- The DELETE distributes over append. -/
theorem deleteVote_append (l₁ l₂ : List Vote) (aid pid : String) :
    deleteVote (l₁ ++ l₂) aid pid = deleteVote l₁ aid pid ++ deleteVote l₂ aid pid :=
  List.filter_append ..

/-- The DELETE drops the row it is keyed at. -/
theorem deleteVote_single (aid pid : String) (x : Int) :
    deleteVote [⟨aid, pid, x⟩] aid pid = [] := by
  simp [deleteVote]

/-- The DELETE is idempotent. -/
theorem deleteVote_idem (l : List Vote) (aid pid : String) :
    deleteVote (deleteVote l aid pid) aid pid = deleteVote l aid pid := by
  unfold deleteVote
  rw [List.filter_filter]
  exact List.filter_congr fun v _ => by cases h : (v.agentId == aid && v.postId == pid) <;> simp [h]

/-- No row of the deleted list is keyed `(aid, pid)`. -/
theorem not_key_of_mem_deleteVote (l : List Vote) (aid pid : String)
    (v : Vote) (hv : v ∈ deleteVote l aid pid) :
    (v.agentId == aid && v.postId == pid) = false := by
  have h2 := (List.mem_filter.mp hv).2
  cases h : (v.agentId == aid && v.postId == pid)
  · rfl
  · rw [h] at h2
    simp at h2

/-- Looking the key up right after the DELETE finds nothing. -/
theorem findVote_deleteVote (l : List Vote) (aid pid : String) :
    (deleteVote l aid pid).find? (fun v => v.agentId == aid && v.postId == pid) = none := by
  refine List.find?_eq_none.mpr fun v hv => ?_
  simp [not_key_of_mem_deleteVote l aid pid v hv]

/-- Looking the key up right after the upsert finds the fresh row. -/
theorem findVote_upsertVote (l : List Vote) (aid pid : String) (x : Int) :
    (upsertVote l aid pid x).find? (fun v => v.agentId == aid && v.postId == pid) =
      some ⟨aid, pid, x⟩ := by
  unfold upsertVote
  rw [List.find?_append, findVote_deleteVote]
  simp

/-- Scores add along concatenation. -/
theorem postScore_append (l₁ l₂ : List Vote) (pid : String) :
    postScore (l₁ ++ l₂) pid = postScore l₁ pid + postScore l₂ pid := by
  simp [postScore, List.filter_append, List.sum_append]

/-- The score of a single row on its own post is its value. -/
theorem postScore_single (aid pid : String) (x : Int) :
    postScore [⟨aid, pid, x⟩] pid = x := by
  simp [postScore]

/-- A post with no vote rows scores 0. -/
theorem postScore_of_no_votes (l : List Vote) (pid : String)
    (h : l.filter (fun v => v.postId == pid) = []) :
    postScore l pid = 0 := by
  simp [postScore, h]

/-! ## C9: self-voting is allowed and credits the author -/

/-- C9: Self-voting is not blocked and credits the own karma of the voter: for
an agent `A` and a post `P` authored by `A` with no prior vote by `A`,
`applyVote A P 1` succeeds and raises the karma of `A` by 1. -/
theorem selfVote_credits_author (db : DB) (A : Agent) (P : Post)
    (hP : findPost db P.id = some P) (hauthor : P.agentId = A.id)
    (hA : findAgentById db A.id = some A)
    (hnov : findVote db A.id P.id = none) :
    ∃ r db', applyVote db A.id P.id 1 = .ok (r, db') ∧
      agentKarma db' A.id = some (A.karma + 1) := by
  have hstep : applyVote db A.id P.id 1 =
      .ok (⟨P.id, 1, postScore (upsertVote db.votes A.id P.id 1) P.id⟩,
        { db with votes := upsertVote db.votes A.id P.id 1,
                  agents := updateKarma db.agents P.agentId (1 - 0) }) := by
    unfold applyVote
    norm_num [hP, hnov]
  refine ⟨_, _, hstep, ?_⟩
  unfold findAgentById at hA
  unfold agentKarma findAgentById
  simp only [hauthor]
  rw [updateKarma_find?_self db.agents A.id (1 - 0) A hA]
  norm_num

/-- Witness for C9 at a concrete state. -/
theorem selfVote_credits_author_witness :
    ∃ r db', applyVote dbC9 "a1" "p1" 1 = Except.ok (r, db') ∧
      agentKarma db' "a1" = some 1 := by
  simpa using selfVote_credits_author dbC9 ⟨"a1", "alice", 0⟩ ⟨"p1", "a1", none, false⟩
    (by decide) rfl (by decide) (by decide)

/-! ## A successful vote call, characterised -/

/-- Taking `keepOk` of a success yields the new state. -/
theorem keepOk_ok (db : DB) {α : Type} (r : α) (d : DB) :
    keepOk db (Except.ok (r, d)) = d := rfl

/-- When the value is one of `1`, `-1`, `0` and the post exists, the vote
route succeeds, returning the new score, and the resulting state is
`voteStep`. -/
theorem applyVote_ok (db : DB) (aid pid : String) (v : Int) (post : Post)
    (hpost : findPost db pid = some post) (hv : v = 1 ∨ v = -1 ∨ v = 0) :
    applyVote db aid pid v =
      .ok (⟨pid, v, postScore (voteStep db aid pid v post.agentId).votes pid⟩,
           voteStep db aid pid v post.agentId) := by
  have hcond : ¬ (v ≠ 1 ∧ v ≠ -1 ∧ v ≠ 0) := by
    rcases hv with h | h | h <;> simp [h]
  unfold applyVote voteStep
  rw [if_neg hcond, hpost]
  rfl

/-- The vote row stored after a vote step. -/
theorem storedVote_voteStep (db : DB) (aid pid : String) (v : Int) (a : String) :
    storedVote (voteStep db aid pid v a) aid pid =
      (if v = 0 then none else some v) := by
  unfold storedVote findVote voteStep
  by_cases hv0 : v = 0
  · rw [if_pos hv0, if_pos hv0]
    show Option.map (fun x => x.value)
      (List.find? (fun w => w.agentId == aid && w.postId == pid)
        (deleteVote db.votes aid pid)) = (none : Option Int)
    rw [findVote_deleteVote]
    rfl
  · rw [if_neg hv0, if_neg hv0]
    show Option.map (fun x => x.value)
      (List.find? (fun w => w.agentId == aid && w.postId == pid)
        (upsertVote db.votes aid pid v)) = some v
    rw [findVote_upsertVote]
    rfl

/-- The `oldValue` a second call would read after a vote step. -/
theorem oldVoteValue_voteStep (db : DB) (aid pid : String) (v : Int) (a : String) :
    oldVoteValue (voteStep db aid pid v a) aid pid = if v = 0 then 0 else v := by
  unfold oldVoteValue findVote voteStep
  by_cases hv0 : v = 0
  · rw [if_pos hv0, if_pos hv0]
    show (match List.find? (fun w => w.agentId == aid && w.postId == pid)
        (deleteVote db.votes aid pid) with
      | some w => w.value
      | none => 0) = (0 : Int)
    rw [findVote_deleteVote]
  · rw [if_neg hv0, if_neg hv0]
    show (match List.find? (fun w => w.agentId == aid && w.postId == pid)
        (upsertVote db.votes aid pid v) with
      | some w => w.value
      | none => 0) = v
    rw [findVote_upsertVote]

/-- The karma the author ends with after a vote step: the old karma plus
the delta. -/
theorem agentKarma_voteStep (db : DB) (aid pid : String) (v : Int) (a : String) :
    agentKarma (voteStep db aid pid v a) a =
      (agentKarma db a).map (fun k => k + (v - oldVoteValue db aid pid)) := by
  unfold agentKarma findAgentById voteStep
  show Option.map (fun x => x.karma)
      (List.find? (fun x => x.id == a)
        (if v - oldVoteValue db aid pid ≠ 0
         then updateKarma db.agents a (v - oldVoteValue db aid pid)
         else db.agents)) = _
  by_cases hd : v - oldVoteValue db aid pid ≠ 0
  · rw [if_pos hd, updateKarma_find?]
    cases hfind : db.agents.find? (fun x => x.id == a) with
    | none => rfl
    | some ag =>
      have hid : ag.id = a := by simpa using List.find?_some hfind
      simp [hid]
  · rw [if_neg hd]
    push_neg at hd
    cases hfind : db.agents.find? (fun x => x.id == a) with
    | none => rfl
    | some ag => simp [hd]

/-- The upsert of a row already upserted with the same value changes
nothing. -/
theorem upsertVote_idem (l : List Vote) (aid pid : String) (v : Int) :
    upsertVote (upsertVote l aid pid v) aid pid v = upsertVote l aid pid v := by
  unfold upsertVote
  rw [deleteVote_append, deleteVote_idem, deleteVote_single, List.append_nil]

/-- Repeating a vote step with the same value is the identity. -/
theorem voteStep_idem (db : DB) (aid pid : String) (v : Int) (a : String) :
    voteStep (voteStep db aid pid v a) aid pid v a = voteStep db aid pid v a := by
  have hold := oldVoteValue_voteStep db aid pid v a
  have hvv : (if v = 0 then (0 : Int) else v) = v := by
    by_cases hv0 : v = 0 <;> simp [hv0]
  rw [hold] at *
  show ({ voteStep db aid pid v a with
    votes := if v = 0 then deleteVote (voteStep db aid pid v a).votes aid pid
             else upsertVote (voteStep db aid pid v a).votes aid pid v,
    agents := if v - oldVoteValue (voteStep db aid pid v a) aid pid ≠ 0
              then updateKarma (voteStep db aid pid v a).agents a
                (v - oldVoteValue (voteStep db aid pid v a) aid pid)
              else (voteStep db aid pid v a).agents } : DB) = voteStep db aid pid v a
  rw [oldVoteValue_voteStep, hvv, sub_self]
  have hvotes : (if v = 0 then deleteVote (voteStep db aid pid v a).votes aid pid
      else upsertVote (voteStep db aid pid v a).votes aid pid v) =
      (voteStep db aid pid v a).votes := by
    by_cases hv0 : v = 0
    · rw [if_pos hv0]
      show deleteVote (if v = 0 then deleteVote db.votes aid pid
        else upsertVote db.votes aid pid v) aid pid = _
      rw [if_pos hv0, deleteVote_idem]
      show _ = (voteStep db aid pid v a).votes
      rw [show (voteStep db aid pid v a).votes =
        (if v = 0 then deleteVote db.votes aid pid
         else upsertVote db.votes aid pid v) from rfl, if_pos hv0]
    · rw [if_neg hv0]
      show upsertVote (if v = 0 then deleteVote db.votes aid pid
        else upsertVote db.votes aid pid v) aid pid v = _
      rw [if_neg hv0, upsertVote_idem]
      show _ = (voteStep db aid pid v a).votes
      rw [show (voteStep db aid pid v a).votes =
        (if v = 0 then deleteVote db.votes aid pid
         else upsertVote db.votes aid pid v) from rfl, if_neg hv0]
  rw [hvotes]
  simp

/-- The state kept after one vote call with a valid value on an existing
post: the stored row becomes the new value (absent for 0) and the other
tables except `agents` are untouched. -/
theorem applyVote_keepOk (db : DB) (aid pid : String) (v : Int)
    (hpost : (findPost db pid).isSome) (hv : v = 1 ∨ v = -1 ∨ v = 0) :
    storedVote (keepOk db (applyVote db aid pid v)) aid pid =
      (if v = 0 then none else some v) ∧
    (keepOk db (applyVote db aid pid v)).posts = db.posts ∧
    (keepOk db (applyVote db aid pid v)).subclaws = db.subclaws ∧
    (keepOk db (applyVote db aid pid v)).votes =
      (if v = 0 then deleteVote db.votes aid pid
       else upsertVote db.votes aid pid v) := by
  obtain ⟨post, hfp⟩ := Option.isSome_iff_exists.mp hpost
  rw [applyVote_ok db aid pid v post hfp hv, keepOk_ok]
  exact ⟨storedVote_voteStep db aid pid v post.agentId, rfl, rfl, rfl⟩

/-! ## C3: the stored vote is the last nonzero value applied -/

/-- Along a run of vote calls by `aid` on an existing post `pid`, with all
values in range, the final stored row is determined by the last value in
the run (and the posts table never changes). -/
theorem storedVote_applyVotes (aid pid : String) (vs : List Int) :
    ∀ db : DB, (findPost db pid).isSome →
      (∀ v ∈ vs, v = 1 ∨ v = -1 ∨ v = 0) →
      storedVote (applyVotes db aid pid vs) aid pid =
        (match vs.getLast? with
         | none => storedVote db aid pid
         | some v => if v = 0 then none else some v) ∧
      (applyVotes db aid pid vs).posts = db.posts := by
  induction vs with
  | nil =>
    intro db _ _
    exact ⟨rfl, rfl⟩
  | cons v t ih =>
    intro db hpost hvalid
    have hv := hvalid v (List.mem_cons_self ..)
    have hkept := applyVote_keepOk db aid pid v hpost hv
    have hstep : applyVotes db aid pid (v :: t) =
        applyVotes (keepOk db (applyVote db aid pid v)) aid pid t := rfl
    have hpost₁ : (findPost (keepOk db (applyVote db aid pid v)) pid).isSome := by
      unfold findPost
      rw [hkept.2.1]
      exact hpost
    have iht := ih (keepOk db (applyVote db aid pid v)) hpost₁
      (fun w hw => hvalid w (List.mem_cons_of_mem _ hw))
    cases t with
    | nil =>
      refine ⟨?_, ?_⟩
      · rw [hstep]
        show storedVote (keepOk db (applyVote db aid pid v)) aid pid = _
        rw [hkept.1]
        simp
      · rw [hstep]
        exact hkept.2.1
    | cons w t' =>
      refine ⟨?_, ?_⟩
      · rw [hstep, List.getLast?_cons_cons, iht.1]
        cases hu : (w :: t').getLast? with
        | none =>
          rw [List.getLast?_eq_none_iff] at hu
          cases hu
        | some u => rfl
      · rw [hstep, iht.2, hkept.2.1]

/-- C3: for every agent `A` and existing post `P`, after any sequence of
`applyVote(A, P, v)` calls with `v` in `{-1, 0, 1}`, the stored vote row
for `(A, P)` holds the last nonzero `v` applied, and is absent when the
last applied `v` was 0 or when no vote was ever applied. -/
theorem stored_vote_is_last (db : DB) (aid pid : String) (vs : List Int)
    (hpost : (findPost db pid).isSome)
    (hvalid : ∀ v ∈ vs, v = 1 ∨ v = -1 ∨ v = 0)
    (hinit : storedVote db aid pid = none) :
    storedVote (applyVotes db aid pid vs) aid pid = lastVoteSpec vs := by
  have h := (storedVote_applyVotes aid pid vs db hpost hvalid).1
  unfold lastVoteSpec
  cases hl : vs.getLast? with
  | none => rw [h, hl, hinit]
  | some v => rw [h, hl]

/-- Witness for C3 at a concrete state: votes `[1, -1, -1, 0, 1]` end
stored as `1`. -/
theorem stored_vote_is_last_witness :
    storedVote (applyVotes dbVoteW "y" "p" [1, -1, -1, 0, 1]) "y" "p" =
      lastVoteSpec [1, -1, -1, 0, 1] :=
  stored_vote_is_last dbVoteW "y" "p" [1, -1, -1, 0, 1] (by decide)
    (by decide) (by decide)

/-! ## C4: idempotence of repeated identical votes -/

/-- The `oldValue` the route reads is the stored vote value with default
0. -/
theorem oldVoteValue_eq_getD (db : DB) (aid pid : String) :
    oldVoteValue db aid pid = (storedVote db aid pid).getD 0 := by
  unfold oldVoteValue storedVote
  cases findVote db aid pid <;> rfl

/-- The karma of the author along a run of vote calls changes by exactly the
difference between the final and the initial stored vote value. -/
theorem agentKarma_applyVotes (aid pid : String) (vs : List Int) :
    ∀ db post, findPost db pid = some post →
      (∀ v ∈ vs, v = 1 ∨ v = -1 ∨ v = 0) →
      agentKarma (applyVotes db aid pid vs) post.agentId =
        (agentKarma db post.agentId).map
          (fun k => k + (oldVoteValue (applyVotes db aid pid vs) aid pid
                          - oldVoteValue db aid pid)) := by
  induction vs with
  | nil =>
    intro db post _ _
    cases h : agentKarma db post.agentId <;> simp [applyVotes, h]
  | cons v t ih =>
    intro db post hfp hvalid
    have hv := hvalid v (List.mem_cons_self ..)
    have hdb₁ : keepOk db (applyVote db aid pid v) =
        voteStep db aid pid v post.agentId := by
      rw [applyVote_ok db aid pid v post hfp hv, keepOk_ok]
    have hunfold : applyVotes db aid pid (v :: t) =
        applyVotes (voteStep db aid pid v post.agentId) aid pid t := by
      rw [← hdb₁]
      rfl
    rw [hunfold]
    have hfpS : findPost (voteStep db aid pid v post.agentId) pid = some post := hfp
    have iht := ih (voteStep db aid pid v post.agentId) post hfpS
      (fun w hw => hvalid w (List.mem_cons_of_mem _ hw))
    rw [iht, agentKarma_voteStep, oldVoteValue_voteStep]
    have hvv : (if v = 0 then (0 : Int) else v) = v := by
      by_cases hv0 : v = 0 <;> simp [hv0]
    rw [hvv]
    cases hk : agentKarma db post.agentId with
    | none => rfl
    | some k =>
      simp only [Option.map_some']
      congr 1
      omega

/-- C4: repeated identical votes are idempotent — a second call with the
same value returns the same response and leaves the state unchanged (so no
karma of any agent moves) — and across any run of votes by one agent on one
post starting with no stored row, the karma of the author changes by exactly
the final vote value minus the initial (zero) value. -/
theorem applyVote_idempotent :
    (∀ (db : DB) (aid pid : String) (v : Int) (r : VoteResp) (db' : DB),
       applyVote db aid pid v = .ok (r, db') →
       applyVote db' aid pid v = .ok (r, db')) ∧
    (∀ (db : DB) (aid pid : String) (vs : List Int) (post : Post),
       findPost db pid = some post →
       (∀ v ∈ vs, v = 1 ∨ v = -1 ∨ v = 0) →
       storedVote db aid pid = none →
       agentKarma (applyVotes db aid pid vs) post.agentId =
         (agentKarma db post.agentId).map (fun k => k + vs.getLast?.getD 0)) := by
  constructor
  · intro db aid pid v r db' h
    by_cases hc : v ≠ 1 ∧ v ≠ -1 ∧ v ≠ 0
    · exfalso
      unfold applyVote at h
      rw [if_pos hc] at h
      exact Except.noConfusion h
    · have hv : v = 1 ∨ v = -1 ∨ v = 0 := by tauto
      cases hfp : findPost db pid with
      | none =>
        exfalso
        unfold applyVote at h
        rw [if_neg hc, hfp] at h
        exact Except.noConfusion h
      | some post =>
        rw [applyVote_ok db aid pid v post hfp hv] at h
        injection h with h2
        rw [Prod.mk.injEq] at h2
        obtain ⟨hr, hdb⟩ := h2
        have hfp2 : findPost db' pid = some post := by
          rw [← hdb]
          exact hfp
        rw [applyVote_ok db' aid pid v post hfp2 hv, ← hdb, voteStep_idem, ← hr]
  · intro db aid pid vs post hfp hvalid hinit
    have h := agentKarma_applyVotes aid pid vs db post hfp hvalid
    have hinit0 : oldVoteValue db aid pid = 0 := by
      rw [oldVoteValue_eq_getD, hinit]
      rfl
    have hst := (storedVote_applyVotes aid pid vs db (by rw [hfp]; rfl) hvalid).1
    have hfin : oldVoteValue (applyVotes db aid pid vs) aid pid =
        vs.getLast?.getD 0 := by
      rw [oldVoteValue_eq_getD, hst]
      cases hl : vs.getLast? with
      | none =>
        show (storedVote db aid pid).getD 0 = (none : Option Int).getD 0
        rw [hinit]
      | some u =>
        show ((if u = 0 then none else some u : Option Int)).getD 0 =
          (some u).getD 0
        by_cases hu : u = 0
        · rw [if_pos hu]
          simp [hu]
        · rw [if_neg hu]
    rw [h, hfin, hinit0]
    cases hk : agentKarma db post.agentId <;> simp

/-- Witness for C4: voting `1` twice on a fresh post; the second call
repeats the first response and state, and a run `[1, 1]` moves the
karma of the author by `1`. -/
theorem applyVote_idempotent_witness :
    (applyVote dbVoteW "y" "p" 1 =
      Except.ok (⟨"p", 1, 1⟩,
        { dbVoteW with votes := [⟨"y", "p", 1⟩],
                       agents := [⟨"x", "xena", 1⟩, ⟨"y", "yuri", 0⟩] })) ∧
    applyVote { dbVoteW with votes := [⟨"y", "p", 1⟩],
                             agents := [⟨"x", "xena", 1⟩, ⟨"y", "yuri", 0⟩] }
        "y" "p" 1 =
      Except.ok (⟨"p", 1, 1⟩,
        { dbVoteW with votes := [⟨"y", "p", 1⟩],
                       agents := [⟨"x", "xena", 1⟩, ⟨"y", "yuri", 0⟩] }) ∧
    agentKarma (applyVotes dbVoteW "y" "p" [1, 1]) "x" =
      (agentKarma dbVoteW "x").map (fun k => k + ([1, 1] : List Int).getLast?.getD 0) := by
  refine ⟨rfl, applyVote_idempotent.1 dbVoteW "y" "p" 1 _ _ rfl, ?_⟩
  exact applyVote_idempotent.2 dbVoteW "y" "p" [1, 1] ⟨"p", "x", none, false⟩
    (by decide) (by decide) (by decide)

/-! ## C2: the upvote / downvote / retract scenario -/

/-- The vote table of a vote step, spelled out. -/
theorem voteStep_votes (db : DB) (aid pid : String) (v : Int) (a : String) :
    (voteStep db aid pid v a).votes =
      if v = 0 then deleteVote db.votes aid pid
      else upsertVote db.votes aid pid v := rfl

/-- A post with no vote rows has no row for any `(agent, post)` key on
it. -/
theorem findVote_none_of_no_post_votes (l : List Vote) (aid pid : String)
    (h : l.filter (fun v => v.postId == pid) = []) :
    l.find? (fun v => v.agentId == aid && v.postId == pid) = none := by
  refine List.find?_eq_none.mpr fun v hv hk => ?_
  rw [Bool.and_eq_true] at hk
  exact absurd hk.2 (List.filter_eq_nil_iff.mp h v hv)

/-- C2: agent `X` authors post `P` with no votes yet; voter `yid` votes
`1`, then `-1`, then `0`.  After each call, in order: stored vote `1`,
karma of `X` up by 1, returned score `1` (the sum of all vote values on
`P`); stored vote `-1`, karma net `-1`, score `-1`; vote row deleted,
karma net `0`, score `0`. -/
theorem vote_scenario (db : DB) (X : Agent) (P : Post) (yid : String)
    (hP : findPost db P.id = some P) (hauthor : P.agentId = X.id)
    (hX : findAgentById db X.id = some X)
    (hempty : db.votes.filter (fun v => v.postId == P.id) = []) :
    ∃ db₁ db₂ db₃,
      applyVote db yid P.id 1 = .ok (⟨P.id, 1, 1⟩, db₁) ∧
      storedVote db₁ yid P.id = some 1 ∧
      agentKarma db₁ X.id = some (X.karma + 1) ∧
      applyVote db₁ yid P.id (-1) = .ok (⟨P.id, -1, -1⟩, db₂) ∧
      storedVote db₂ yid P.id = some (-1) ∧
      agentKarma db₂ X.id = some (X.karma - 1) ∧
      applyVote db₂ yid P.id 0 = .ok (⟨P.id, 0, 0⟩, db₃) ∧
      storedVote db₃ yid P.id = none ∧
      agentKarma db₃ X.id = some X.karma := by
  have hfv0 : findVote db yid P.id = none :=
    findVote_none_of_no_post_votes db.votes yid P.id hempty
  have hold0 : oldVoteValue db yid P.id = 0 := by
    unfold oldVoteValue
    rw [hfv0]
  have hdel : deleteVote db.votes yid P.id = db.votes := by
    refine deleteVote_eq_self db.votes yid P.id fun v hv hk => ?_
    exact absurd (by simp [hk.2] : (v.postId == P.id) = true)
      (List.filter_eq_nil_iff.mp hempty v hv)
  have hscore0 : postScore db.votes P.id = 0 :=
    postScore_of_no_votes db.votes P.id hempty
  have hk0 : agentKarma db X.id = some X.karma := by
    unfold agentKarma
    rw [hX]
    rfl
  -- step 1: vote 1
  have hok1 := applyVote_ok db yid P.id 1 P hP (by norm_num)
  rw [hauthor] at hok1
  have hvotes1 : (voteStep db yid P.id 1 X.id).votes =
      db.votes ++ [⟨yid, P.id, 1⟩] := by
    rw [voteStep_votes, if_neg (by norm_num : (1 : Int) ≠ 0)]
    unfold upsertVote
    rw [hdel]
  have hP1 : findPost (voteStep db yid P.id 1 X.id) P.id = some P := hP
  have hold1 : oldVoteValue (voteStep db yid P.id 1 X.id) yid P.id = 1 := by
    rw [oldVoteValue_voteStep]
    norm_num
  have hscore1 : postScore (voteStep db yid P.id 1 X.id).votes P.id = 1 := by
    rw [hvotes1, postScore_append, hscore0, postScore_single]
    norm_num
  have hk1 : agentKarma (voteStep db yid P.id 1 X.id) X.id =
      some (X.karma + 1) := by
    rw [agentKarma_voteStep, hold0, hk0]
    simp only [Option.map_some', Option.some.injEq]
    ring
  -- step 2: vote -1
  have hok2 := applyVote_ok (voteStep db yid P.id 1 X.id) yid P.id (-1) P hP1
    (by norm_num)
  rw [hauthor] at hok2
  have hvotes2 : (voteStep (voteStep db yid P.id 1 X.id) yid P.id (-1) X.id).votes =
      db.votes ++ [⟨yid, P.id, -1⟩] := by
    rw [voteStep_votes, if_neg (by norm_num : (-1 : Int) ≠ 0), hvotes1]
    unfold upsertVote
    rw [deleteVote_append, hdel, deleteVote_single, List.append_nil]
  have hP2 : findPost (voteStep (voteStep db yid P.id 1 X.id) yid P.id (-1) X.id)
      P.id = some P := hP
  have hold2 : oldVoteValue (voteStep (voteStep db yid P.id 1 X.id) yid P.id (-1) X.id)
      yid P.id = -1 := by
    rw [oldVoteValue_voteStep]
    norm_num
  have hscore2 : postScore
      (voteStep (voteStep db yid P.id 1 X.id) yid P.id (-1) X.id).votes P.id = -1 := by
    rw [hvotes2, postScore_append, hscore0, postScore_single]
    norm_num
  have hk2 : agentKarma (voteStep (voteStep db yid P.id 1 X.id) yid P.id (-1) X.id)
      X.id = some (X.karma - 1) := by
    rw [agentKarma_voteStep, hold1, hk1]
    simp only [Option.map_some', Option.some.injEq]
    ring
  -- step 3: vote 0
  have hok3 := applyVote_ok
    (voteStep (voteStep db yid P.id 1 X.id) yid P.id (-1) X.id) yid P.id 0 P hP2
    (by norm_num)
  rw [hauthor] at hok3
  have hvotes3 : (voteStep (voteStep (voteStep db yid P.id 1 X.id) yid P.id (-1) X.id)
      yid P.id 0 X.id).votes = db.votes := by
    rw [voteStep_votes, if_pos rfl, hvotes2, deleteVote_append, hdel,
      deleteVote_single, List.append_nil]
  have hscore3 : postScore (voteStep (voteStep (voteStep db yid P.id 1 X.id)
      yid P.id (-1) X.id) yid P.id 0 X.id).votes P.id = 0 := by
    rw [hvotes3, hscore0]
  have hk3 : agentKarma (voteStep (voteStep (voteStep db yid P.id 1 X.id)
      yid P.id (-1) X.id) yid P.id 0 X.id) X.id = some X.karma := by
    rw [agentKarma_voteStep, hold2, hk2]
    simp only [Option.map_some', Option.some.injEq]
    ring
  refine ⟨voteStep db yid P.id 1 X.id,
    voteStep (voteStep db yid P.id 1 X.id) yid P.id (-1) X.id,
    voteStep (voteStep (voteStep db yid P.id 1 X.id) yid P.id (-1) X.id)
      yid P.id 0 X.id, ?_, ?_, hk1, ?_, ?_, hk2, ?_, ?_, hk3⟩
  · rw [hok1, hscore1]
  · rw [storedVote_voteStep]
    norm_num
  · rw [hok2, hscore2]
  · rw [storedVote_voteStep]
    norm_num
  · rw [hok3, hscore3]
  · rw [storedVote_voteStep]
    norm_num

/-- Witness for C2 at a concrete state. -/
theorem vote_scenario_witness :
    ∃ db₁ db₂ db₃,
      applyVote dbVoteW "y" "p" 1 = Except.ok (⟨"p", 1, 1⟩, db₁) ∧
      storedVote db₁ "y" "p" = some 1 ∧
      agentKarma db₁ "x" = some 1 ∧
      applyVote db₁ "y" "p" (-1) = Except.ok (⟨"p", -1, -1⟩, db₂) ∧
      storedVote db₂ "y" "p" = some (-1) ∧
      agentKarma db₂ "x" = some (-1) ∧
      applyVote db₂ "y" "p" 0 = Except.ok (⟨"p", 0, 0⟩, db₃) ∧
      storedVote db₃ "y" "p" = none ∧
      agentKarma db₃ "x" = some 0 := by
  simpa using vote_scenario dbVoteW ⟨"x", "xena", 0⟩ ⟨"p", "x", none, false⟩ "y"
    (by decide) rfl (by decide) (by decide)

/-! ## C6 and C7: moderator promotion rules -/

/-- C6: the karma threshold for promotion sits exactly at 5: an
owner-issued request for an existing target with karma below 5 fails with
the insufficient-karma error, while the same request for a target with
karma 5 that is not yet a moderator succeeds and appends the registry
row. -/
theorem addModerator_karma_threshold :
    (∀ (db : DB) (rid scn an : String) (sc : Subclaw) (target : Agent),
       an ≠ "" →
       findSubclawByName db scn = some sc →
       sc.creatorId = some rid →
       findAgentByName db an = some target →
       target.karma < 5 →
       addModerator db rid scn (some an) =
         .error ⟨400, "Agent needs at least 5 Karma to become a moderator"⟩) ∧
    (∀ (db : DB) (rid scn an : String) (sc : Subclaw) (target : Agent),
       an ≠ "" →
       findSubclawByName db scn = some sc →
       sc.creatorId = some rid →
       findAgentByName db an = some target →
       target.karma = 5 →
       db.moderators.any
         (fun m => m.subclawId == sc.id && m.agentId == target.id) = false →
       addModerator db rid scn (some an) =
         .ok (⟨true, s!"{an} is now a moderator of c/{scn}"⟩,
              { db with
                moderators :=
                  db.moderators ++ [⟨sc.id, target.id, "moderator", rid⟩],
                notifs := db.notifs ++ [⟨target.id, "mod_added"⟩] })) := by
  constructor
  · intro db rid scn an sc target han hsub hown htarget hkarma
    have hown2 : ¬ sc.creatorId ≠ some rid := by rw [hown]; simp
    simp [addModerator, han, hsub, hown2, htarget, hkarma]
  · intro db rid scn an sc target han hsub hown htarget hkarma hnm
    have hown2 : ¬ sc.creatorId ≠ some rid := by rw [hown]; simp
    have hk2 : ¬ target.karma < 5 := by omega
    simp [addModerator, han, hsub, hown2, htarget, hk2, hnm]

/-- Witness for C6: in `dbMod` the owner cannot promote karma-4 `kara`
but can promote karma-5 `kent`. -/
theorem addModerator_karma_threshold_witness :
    addModerator dbMod "o" "claws" (some "kara") =
      Except.error ⟨400, "Agent needs at least 5 Karma to become a moderator"⟩ ∧
    addModerator dbMod "o" "claws" (some "kent") =
      Except.ok (⟨true, "kent is now a moderator of c/claws"⟩,
        { dbMod with moderators := [⟨"s", "k5", "moderator", "o"⟩],
                     notifs := [⟨"k5", "mod_added"⟩] }) := by
  constructor
  · exact addModerator_karma_threshold.1 dbMod "o" "claws" "kara"
      ⟨"s", "claws", some "o"⟩ ⟨"k4", "kara", 4⟩ (by decide) (by decide) rfl
      (by decide) (by decide)
  · have h := addModerator_karma_threshold.2 dbMod "o" "claws" "kent"
      ⟨"s", "claws", some "o"⟩ ⟨"k5", "kent", 5⟩ (by decide) (by decide) rfl
      (by decide) rfl (by decide)
    simpa using h

/-- C7: a requester who is not the community creator is Forbidden from
adding a moderator, whatever the target is (the owner check precedes the
target lookup), and the state is unchanged. -/
theorem addModerator_forbidden_nonowner (db : DB) (rid scn a : String)
    (sc : Subclaw) (ha : a ≠ "")
    (hsub : findSubclawByName db scn = some sc)
    (hnot : sc.creatorId ≠ some rid) :
    addModerator db rid scn (some a) =
      .error ⟨403, "Only the subclaw owner can add moderators"⟩ := by
  simp [addModerator, ha, hsub, hnot]

/-- Witness for C7: non-owner `r` is refused in `dbMod`. -/
theorem addModerator_forbidden_nonowner_witness :
    addModerator dbMod "r" "claws" (some "kara") =
      Except.error ⟨403, "Only the subclaw owner can add moderators"⟩ :=
  addModerator_forbidden_nonowner dbMod "r" "claws" "kara"
    ⟨"s", "claws", some "o"⟩ (by decide) (by decide) (by decide)

/-! ## C8: the pin request check cascade -/

/-- A `find?` by id across a pinned-flag update: the found row is the same
row with its flag possibly flipped. -/
theorem findPost_setPinned (posts : List Post) (qid x : String) (b : Bool) :
    (setPinned posts qid b).find? (fun p => p.id == x) =
      (posts.find? (fun p => p.id == x)).map
        (fun p => if p.id == qid then { p with pinned := b } else p) := by
  refine find?_map_pres _ _ (fun p => ?_) posts
  by_cases h : p.id == qid <;> simp [h]

/-- C8: pinning fails with 404 when the post does not exist, with the 400
invalid-state error when the post has no subclaw, with 403 when the
requester is neither the subclaw creator nor a registered moderator; and
a success implies the post existed in a subclaw, the requester was
authorized, the pin count was below 3, and the post ends pinned. -/
theorem pinPost_checks :
    (∀ (db : DB) (rid pid : String), findPost db pid = none →
       pinPost db rid pid = .error ⟨404, "Post not found"⟩) ∧
    (∀ (db : DB) (rid pid : String) (post : Post),
       findPost db pid = some post → post.subclawId = none →
       pinPost db rid pid = .error ⟨400, "Can only pin posts in subclaws"⟩) ∧
    (∀ (db : DB) (rid pid scid : String) (post : Post) (sc : Subclaw),
       findPost db pid = some post → post.subclawId = some scid →
       findSubclawById db scid = some sc →
       sc.creatorId ≠ some rid → isModOf db scid rid = false →
       pinPost db rid pid =
         .error ⟨403, "Only subclaw owner or moderators can pin posts"⟩) ∧
    (∀ (db : DB) (rid pid : String) (r : SuccessResp) (db' : DB),
       pinPost db rid pid = .ok (r, db') →
       ∃ post scid, findPost db pid = some post ∧ post.subclawId = some scid ∧
         ((findSubclawById db scid).bind (·.creatorId) = some rid ∨
           isModOf db scid rid = true) ∧
         pinnedCount db scid < 3 ∧
         (findPost db' pid).map (·.pinned) = some true) := by
  refine ⟨?_, ?_, ?_, ?_⟩
  · intro db rid pid h
    simp [pinPost, h]
  · intro db rid pid post hfp hsc
    simp [pinPost, hfp, hsc]
  · intro db rid pid scid post sc hfp hsc hsub hnot hmod
    simp [pinPost, hfp, hsc, hsub, hnot, hmod]
  · intro db rid pid r db' h
    cases hfp : findPost db pid with
    | none => simp [pinPost, hfp] at h
    | some post =>
      cases hsc : post.subclawId with
      | none => simp [pinPost, hfp, hsc] at h
      | some scid =>
        by_cases hauth : ((findSubclawById db scid).bind (·.creatorId) ≠ some rid ∧
            ¬ isModOf db scid rid)
        · simp [pinPost, hfp, hsc, hauth] at h
        · by_cases hcnt : pinnedCount db scid ≥ 3
          · simp only [pinPost, hfp, hsc] at h
            rw [if_neg hauth, if_pos hcnt] at h
            exact absurd h (by simp)
          · simp only [pinPost, hfp, hsc] at h
            rw [if_neg hauth, if_neg hcnt] at h
            injection h with h2
            rw [Prod.mk.injEq] at h2
            obtain ⟨hr, hdb⟩ := h2
            refine ⟨post, scid, rfl, hsc, ?_, by omega, ?_⟩
            · rcases not_and_or.mp hauth with h1 | h1
              · exact Or.inl (not_not.mp h1)
              · exact Or.inr (by simpa using h1)
            · rw [← hdb]
              unfold findPost at hfp ⊢
              show Option.map (fun p => p.pinned)
                ((setPinned db.posts pid true).find? (fun p => p.id == pid)) =
                some true
              rw [findPost_setPinned, hfp]
              have hid := List.find?_some hfp
              simp only [Option.map_some']
              simp [hid]

/-- Witness for C8: the four checks observed on concrete states. -/
theorem pinPost_checks_witness :
    pinPost dbPin "o" "zz" = Except.error ⟨404, "Post not found"⟩ ∧
    pinPost dbPin "o" "q5" = Except.error ⟨400, "Can only pin posts in subclaws"⟩ ∧
    pinPost dbPin "r" "q4" =
      Except.error ⟨403, "Only subclaw owner or moderators can pin posts"⟩ ∧
    (∃ post scid, findPost dbPin2 "q4" = some post ∧ post.subclawId = some scid ∧
      ((findSubclawById dbPin2 scid).bind (·.creatorId) = some "o" ∨
        isModOf dbPin2 scid "o" = true) ∧
      pinnedCount dbPin2 scid < 3 ∧
      (findPost { dbPin2 with
          posts := [⟨"q1", "o", some "s", true⟩, ⟨"q4", "o", some "s", true⟩] }
        "q4").map (·.pinned) = some true) := by
  refine ⟨pinPost_checks.1 dbPin "o" "zz" (by decide),
    pinPost_checks.2.1 dbPin "o" "q5" ⟨"q5", "o", none, false⟩ (by decide) rfl,
    pinPost_checks.2.2.1 dbPin "r" "q4" "s" ⟨"q4", "o", some "s", false⟩
      ⟨"s", "claws", some "o"⟩ (by decide) rfl (by decide) (by decide) (by decide),
    pinPost_checks.2.2.2 dbPin2 "o" "q4" ⟨true, "Post pinned"⟩ _ (by decide)⟩

/-! ## C10: pinning is not idempotent at the limit -/

/-- C10: with exactly 3 pinned posts in the subclaw, an authorized pin
request for a post that is itself one of the 3 still fails with the
maximum-3 error: the count includes the target post. -/
theorem pin_counts_target (db : DB) (rid pid scid : String) (post : Post)
    (hfp : findPost db pid = some post)
    (hsc : post.subclawId = some scid)
    (hpinned : post.pinned = true)
    (hauth : (findSubclawById db scid).bind (·.creatorId) = some rid ∨
      isModOf db scid rid = true)
    (hcount : pinnedCount db scid = 3) :
    pinPost db rid pid = .error ⟨400, "Maximum 3 pinned posts per subclaw"⟩ := by
  have hcond : ¬ ((findSubclawById db scid).bind (·.creatorId) ≠ some rid ∧
      ¬ isModOf db scid rid) := by
    rcases hauth with h | h
    · exact fun hc => hc.1 h
    · exact fun hc => hc.2 (by simp [h])
  have hge : pinnedCount db scid ≥ 3 := by omega
  simp only [pinPost, hfp, hsc]
  rw [if_neg hcond, if_pos hge]

/-- Witness for C10: in `dbPin` the owner re-pinning the already pinned
`q1` hits the limit error. -/
theorem pin_counts_target_witness :
    pinPost dbPin "o" "q1" =
      Except.error ⟨400, "Maximum 3 pinned posts per subclaw"⟩ :=
  pin_counts_target dbPin "o" "q1" "s" ⟨"q1", "o", some "s", true⟩
    (by decide) rfl rfl (Or.inl (by decide)) (by decide)

/-! ## C5: the pin limit, and unpin-then-repin -/

/-- Unfolding `setPinned` on a cons. -/
theorem setPinned_cons (a : Post) (t : List Post) (qid : String) (b : Bool) :
    setPinned (a :: t) qid b =
      (if a.id == qid then { a with pinned := b } else a) :: setPinned t qid b := rfl

/-- Applying `setPinned` at an id that occurs nowhere changes nothing. -/
theorem setPinned_eq_self (posts : List Post) (qid : String) (b : Bool)
    (h : ∀ p ∈ posts, p.id ≠ qid) : setPinned posts qid b = posts := by
  unfold setPinned
  have h2 : ∀ p ∈ posts,
      (if p.id == qid then { p with pinned := b } else p) = id p := by
    intro p hp
    rw [if_neg (by simp [h p hp])]
    rfl
  rw [List.map_congr_left h2, List.map_id]

/-- Unpinning a pinned post of the subclaw lowers the pinned count by
one (ids are unique, as the primary key guarantees). -/
theorem pinnedFilter_setPinned_false (scid qid : String) (q : Post)
    (hq : (q.subclawId == some scid && q.pinned) = true) :
    ∀ posts : List Post, posts.find? (fun p => p.id == qid) = some q →
      (posts.map (·.id)).Nodup →
      ((setPinned posts qid false).filter
          (fun p => p.subclawId == some scid && p.pinned)).length + 1 =
        (posts.filter (fun p => p.subclawId == some scid && p.pinned)).length := by
  intro posts
  induction posts with
  | nil =>
    intro hfind _
    simp at hfind
  | cons a t ih =>
    intro hfind hnodup
    rw [List.map_cons, List.nodup_cons] at hnodup
    by_cases ha : (a.id == qid) = true
    · have haq : a = q := by
        simp only [List.find?_cons, ha] at hfind
        exact Option.some.inj hfind
      have hnone : ∀ p ∈ t, p.id ≠ qid := by
        intro p hp hpe
        have hmem : p.id ∈ t.map (fun x => x.id) := List.mem_map_of_mem _ hp
        have haid : a.id = qid := by simpa using ha
        rw [hpe, ← haid] at hmem
        exact hnodup.1 hmem
      have hqa : (a.subclawId == some scid && a.pinned) = true := by
        rw [haq]
        exact hq
      rw [setPinned_cons, if_pos ha, setPinned_eq_self t qid false hnone]
      simp [List.filter_cons, hqa]
    · have hfind' : t.find? (fun p => p.id == qid) = some q := by
        simp only [List.find?_cons, ha] at hfind
        simpa using hfind
      rw [setPinned_cons, if_neg ha]
      have iht := ih hfind' hnodup.2
      by_cases hpa : (a.subclawId == some scid && a.pinned) = true
      · simp only [List.filter_cons, hpa, if_true, List.length_cons]
        omega
      · simp only [List.filter_cons, hpa, if_false]
        simp only [Bool.not_eq_true] at hpa
        simp [hpa]
        omega

/-- Counterexample to C5 as stated: in `dbPin` the community of `q4` has
3 pinned posts, yet the unauthorized requester `r` receives the 403
Forbidden error, not the LimitExceeded 400 — the authorization check runs
before the count check. -/
theorem pin_limit_counterexample :
    pinnedCount dbPin "s" = 3 ∧
    findPost dbPin "q4" = some ⟨"q4", "o", some "s", false⟩ ∧
    pinPost dbPin "r" "q4" =
      Except.error ⟨403, "Only subclaw owner or moderators can pin posts"⟩ ∧
    pinPost dbPin "r" "q4" ≠
      Except.error ⟨400, "Maximum 3 pinned posts per subclaw"⟩ := by decide

/-- C5 (amended): for an authorized requester, pinning fails with the
LimitExceeded error whenever the community of the post already has 3 pinned
posts; and unpinning one of the 3 then pinning a not-yet-pinned 4th post
succeeds and sets `pinned` on it. -/
theorem pin_limit_and_unpin_repin :
    (∀ (db : DB) (rid pid scid : String) (post : Post),
       findPost db pid = some post → post.subclawId = some scid →
       ((findSubclawById db scid).bind (·.creatorId) = some rid ∨
         isModOf db scid rid = true) →
       3 ≤ pinnedCount db scid →
       pinPost db rid pid = .error ⟨400, "Maximum 3 pinned posts per subclaw"⟩) ∧
    (∀ (db : DB) (rid qid pid4 scid : String) (q p4 : Post),
       (db.posts.map (·.id)).Nodup →
       findPost db qid = some q → q.subclawId = some scid → q.pinned = true →
       findPost db pid4 = some p4 → p4.subclawId = some scid → p4.pinned = false →
       ((findSubclawById db scid).bind (·.creatorId) = some rid ∨
         isModOf db scid rid = true) →
       pinnedCount db scid = 3 →
       ∃ db₁ db₂,
         unpinPost db rid qid = .ok (⟨true, "Post unpinned"⟩, db₁) ∧
         pinPost db₁ rid pid4 = .ok (⟨true, "Post pinned"⟩, db₂) ∧
         (findPost db₂ pid4).map (·.pinned) = some true) := by
  constructor
  · intro db rid pid scid post hfp hsc hauth hge
    have hcond : ¬ ((findSubclawById db scid).bind (·.creatorId) ≠ some rid ∧
        ¬ isModOf db scid rid) := by
      rcases hauth with h | h
      · exact fun hc => hc.1 h
      · exact fun hc => hc.2 (by simp [h])
    simp only [pinPost, hfp, hsc]
    rw [if_neg hcond, if_pos hge]
  · intro db rid qid pid4 scid q p4 hnodup hqfind hqsc hqpin hp4find hp4sc hp4pin
      hauth hcount
    have hcond : ¬ ((findSubclawById db scid).bind (·.creatorId) ≠ some rid ∧
        ¬ isModOf db scid rid) := by
      rcases hauth with h | h
      · exact fun hc => hc.1 h
      · exact fun hc => hc.2 (by simp [h])
    -- the unpin call
    have hunpin : unpinPost db rid qid =
        .ok (⟨true, "Post unpinned"⟩,
          { db with posts := setPinned db.posts qid false }) := by
      simp only [unpinPost, hqfind, hqsc, Option.some_bind]
      rw [if_neg hcond]
    -- facts about the state after the unpin
    have hne : p4.id ≠ qid := by
      intro hpe
      have h4' : p4.id = pid4 := by
        have hcopy := hp4find
        unfold findPost at hcopy
        have h4 := List.find?_some hcopy
        simpa using h4
      rw [h4'] at hpe
      rw [hpe, hqfind] at hp4find
      have hqp : q = p4 := Option.some.inj hp4find
      rw [← hqp, hqpin] at hp4pin
      exact Bool.noConfusion hp4pin
    have hp4find1 : findPost { db with posts := setPinned db.posts qid false }
        pid4 = some p4 := by
      unfold findPost at hp4find ⊢
      show (setPinned db.posts qid false).find? (fun p => p.id == pid4) = some p4
      rw [findPost_setPinned, hp4find]
      simp [hne]
    have hcnt1 : pinnedCount { db with posts := setPinned db.posts qid false }
        scid + 1 = 3 := by
      unfold pinnedCount at hcount ⊢
      show ((setPinned db.posts qid false).filter
        (fun p => p.subclawId == some scid && p.pinned)).length + 1 = 3
      rw [pinnedFilter_setPinned_false scid qid q (by simp [hqsc, hqpin])
        db.posts hqfind hnodup, hcount]
    have hlt : ¬ pinnedCount { db with posts := setPinned db.posts qid false }
        scid ≥ 3 := by omega
    have hcond1 : ¬ ((findSubclawById
        { db with posts := setPinned db.posts qid false } scid).bind
          (·.creatorId) ≠ some rid ∧
        ¬ isModOf { db with posts := setPinned db.posts qid false } scid rid) :=
      hcond
    -- the pin call
    have hpin : pinPost { db with posts := setPinned db.posts qid false } rid
        pid4 =
        .ok (⟨true, "Post pinned"⟩,
          { db with posts := setPinned (setPinned db.posts qid false) pid4 true }) := by
      simp only [pinPost, hp4find1, hp4sc]
      rw [if_neg hcond1, if_neg hlt]
    refine ⟨_, _, hunpin, hpin, ?_⟩
    unfold findPost at hp4find1 ⊢
    show Option.map (fun p => p.pinned)
      ((setPinned (setPinned db.posts qid false) pid4 true).find?
        (fun p => p.id == pid4)) = some true
    rw [findPost_setPinned, hp4find1]
    have hid := List.find?_some hp4find1
    simp only [Option.map_some']
    simp [hid]

/-- Witness for C5 (amended): in `dbPin` the owner hits the limit pinning
`q4`, and unpinning `q1` then pinning `q4` succeeds. -/
theorem pin_limit_and_unpin_repin_witness :
    pinPost dbPin "o" "q4" =
      Except.error ⟨400, "Maximum 3 pinned posts per subclaw"⟩ ∧
    (∃ db₁ db₂,
      unpinPost dbPin "o" "q1" = Except.ok (⟨true, "Post unpinned"⟩, db₁) ∧
      pinPost db₁ "o" "q4" = Except.ok (⟨true, "Post pinned"⟩, db₂) ∧
      (findPost db₂ "q4").map (·.pinned) = some true) := by
  constructor
  · exact pin_limit_and_unpin_repin.1 dbPin "o" "q4" "s"
      ⟨"q4", "o", some "s", false⟩ (by decide) rfl (Or.inl (by decide)) (by decide)
  · exact pin_limit_and_unpin_repin.2 dbPin "o" "q1" "q4" "s"
      ⟨"q1", "o", some "s", true⟩ ⟨"q4", "o", some "s", false⟩ (by decide)
      (by decide) rfl rfl (by decide) rfl rfl (Or.inl (by decide)) (by decide)

/-! ## C1: the karma invariant over all reachable states

The remaining lemmas track how the selected-sum of the vote table moves
under the vote mutation, and that every request preserves the
well-formedness bundle `Inv`. -/

theorem sumVals_append (l₁ l₂ : List Vote) (q : Vote → Bool) :
    sumVals (l₁ ++ l₂) q = sumVals l₁ q + sumVals l₂ q := by
  simp [sumVals, List.filter_append]

theorem sumVals_single (w : Vote) (q : Vote → Bool) :
    sumVals [w] q = if q w then w.value else 0 := by
  by_cases h : q w <;> simp [sumVals, h]

/-- Deleting a key that has no row changes nothing. -/
theorem sumVals_deleteVote_none (aid pid : String) (q : Vote → Bool)
    (l : List Vote)
    (hfv : l.find? (fun w => w.agentId == aid && w.postId == pid) = none) :
    sumVals (deleteVote l aid pid) q = sumVals l q := by
  have hnone := List.find?_eq_none.mp hfv
  rw [deleteVote_eq_self l aid pid]
  intro w hw hk
  exact hnone w hw (by simp [hk.1, hk.2])

/-- Deleting the `(aid, pid)` row subtracts its selected value (vote keys
are unique). -/
theorem sumVals_deleteVote_some (aid pid : String) (q : Vote → Bool)
    (r : Vote) :
    ∀ l : List Vote,
      l.find? (fun w => w.agentId == aid && w.postId == pid) = some r →
      (l.map (fun w => (w.agentId, w.postId))).Nodup →
      sumVals (deleteVote l aid pid) q =
        sumVals l q - (if q r then r.value else 0) := by
  intro l
  induction l with
  | nil =>
    intro hfv _
    simp at hfv
  | cons a t ih =>
    intro hfv hnodup
    rw [List.map_cons, List.nodup_cons] at hnodup
    by_cases ha : (a.agentId == aid && a.postId == pid) = true
    · have har : a = r := by
        simp only [List.find?_cons, ha] at hfv
        exact Option.some.inj hfv
      have hnone : ∀ w ∈ t, ¬ (w.agentId = aid ∧ w.postId = pid) := by
        intro w hw hk
        have hmem : (w.agentId, w.postId) ∈
            t.map (fun x => (x.agentId, x.postId)) := List.mem_map_of_mem _ hw
        rw [Bool.and_eq_true] at ha
        have ha1 : a.agentId = aid := by simpa using ha.1
        have ha2 : a.postId = pid := by simpa using ha.2
        rw [hk.1, hk.2, ← ha1, ← ha2] at hmem
        exact hnodup.1 hmem
      have hdel : deleteVote (a :: t) aid pid = t := by
        unfold deleteVote
        rw [List.filter_cons_of_neg (by simp [ha]),
          ← deleteVote, deleteVote_eq_self t aid pid hnone]
      rw [hdel, ← har]
      unfold sumVals
      rw [List.filter_cons]
      by_cases hqa : q a = true
      · simp [hqa]
      · simp [hqa]
    · have hdel : deleteVote (a :: t) aid pid =
          a :: deleteVote t aid pid := by
        unfold deleteVote
        rw [List.filter_cons_of_pos (by simp [ha])]
      have hfv' : t.find? (fun w => w.agentId == aid && w.postId == pid) =
          some r := by
        simp only [List.find?_cons, ha] at hfv
        simpa using hfv
      have iht := ih hfv' hnodup.2
      rw [hdel]
      unfold sumVals
      rw [List.filter_cons, List.filter_cons]
      unfold sumVals at iht
      by_cases hqa : q a = true
      · simp only [hqa, if_true, List.map_cons, List.sum_cons]
        omega
      · rw [if_neg (by simp [hqa]), if_neg (by simp [hqa])]
        exact iht

/-- The function `karmaFromVotes` is a selected sum over the vote table. -/
theorem karmaFromVotes_eq_sumVals (db : DB) (x : String) :
    karmaFromVotes db x =
      sumVals db.votes (fun w => postAuthor db w.postId == some x) := rfl

/-- How the per-author vote sum moves across one vote mutation: only the
author of the voted post gains the delta. -/
theorem karmaFromVotes_voteStep (db : DB) (rid pid : String) (v : Int)
    (a x : String)
    (hnodup : (db.votes.map (fun w => (w.agentId, w.postId))).Nodup) :
    karmaFromVotes (voteStep db rid pid v a) x =
      karmaFromVotes db x +
        (if postAuthor db pid == some x then v - oldVoteValue db rid pid
         else 0) := by
  show sumVals (voteStep db rid pid v a).votes
      (fun w => postAuthor db w.postId == some x) =
    karmaFromVotes db x +
      (if postAuthor db pid == some x then v - oldVoteValue db rid pid else 0)
  rw [voteStep_votes]
  cases hfv : db.votes.find? (fun w => w.agentId == rid && w.postId == pid) with
  | none =>
    have hold : oldVoteValue db rid pid = 0 := by
      unfold oldVoteValue findVote
      rw [hfv]
    have hdel : sumVals (deleteVote db.votes rid pid)
        (fun w => postAuthor db w.postId == some x) =
        sumVals db.votes (fun w => postAuthor db w.postId == some x) :=
      sumVals_deleteVote_none rid pid _ db.votes hfv
    by_cases hv0 : v = 0
    · rw [if_pos hv0, hdel, ← karmaFromVotes_eq_sumVals, hold, hv0]
      by_cases hc : (postAuthor db pid == some x) = true
      · rw [if_pos hc]
        omega
      · rw [if_neg (by simp [hc])]
        omega
    · rw [if_neg hv0]
      unfold upsertVote
      rw [sumVals_append, hdel, ← karmaFromVotes_eq_sumVals, sumVals_single,
        hold]
      have hval : ({ agentId := rid, postId := pid, value := v } : Vote).value
          = v := rfl
      simp only [hval]
      by_cases hc : (postAuthor db pid == some x) = true
      · rw [if_pos hc, if_pos hc]
        omega
      · rw [if_neg (by simp [hc]), if_neg (by simp [hc])]
  | some r =>
    have hkey := List.find?_some hfv
    have hrpid : r.postId = pid := by
      rw [Bool.and_eq_true] at hkey
      simpa using hkey.2
    have hold : oldVoteValue db rid pid = r.value := by
      unfold oldVoteValue findVote
      rw [hfv]
    have hdel : sumVals (deleteVote db.votes rid pid)
        (fun w => postAuthor db w.postId == some x) =
        sumVals db.votes (fun w => postAuthor db w.postId == some x) -
          (if postAuthor db r.postId == some x then r.value else 0) :=
      sumVals_deleteVote_some rid pid _ r db.votes hfv hnodup
    rw [hrpid] at hdel
    by_cases hv0 : v = 0
    · rw [if_pos hv0, hdel, ← karmaFromVotes_eq_sumVals, hold, hv0]
      by_cases hc : (postAuthor db pid == some x) = true
      · rw [if_pos hc, if_pos hc]
        omega
      · rw [if_neg (by simp [hc]), if_neg (by simp [hc])]
        omega
    · rw [if_neg hv0]
      unfold upsertVote
      rw [sumVals_append, hdel, ← karmaFromVotes_eq_sumVals, sumVals_single,
        hold]
      have hval : ({ agentId := rid, postId := pid, value := v } : Vote).value
          = v := rfl
      simp only [hval]
      by_cases hc : (postAuthor db pid == some x) = true
      · rw [if_pos hc, if_pos hc, if_pos hc]
        omega
      · rw [if_neg (by simp [hc]), if_neg (by simp [hc]), if_neg (by simp [hc])]
        omega

/-- A request that only touches the moderator or notification tables
preserves the whole bundle. -/
theorem inv_of_same_core (db db' : DB) (ha : db'.agents = db.agents)
    (hp : db'.posts = db.posts) (hv : db'.votes = db.votes) (h : Inv db) :
    Inv db' := by
  have hkfv : ∀ x, karmaFromVotes db' x = karmaFromVotes db x := by
    intro x
    unfold karmaFromVotes postAuthor findPost
    rw [hv, hp]
  constructor
  · rw [hp]
    exact h.postsNodup
  · rw [hv]
    exact h.votesNodup
  · rw [hv, hp]
    exact h.votePostExists
  · rw [hp, ha]
    exact h.postAuthorExists
  · unfold karmaInvariant
    rw [ha]
    intro a hmem
    rw [hkfv a.id]
    exact h.karma a hmem

/-- Ids survive the karma update. -/
theorem exists_id_updateKarma (l : List Agent) (aid : String) (d : Int)
    (x : String) (h : ∃ a ∈ l, a.id = x) :
    ∃ a ∈ updateKarma l aid d, a.id = x := by
  obtain ⟨a, hmem, hid⟩ := h
  refine ⟨if a.id == aid then { a with karma := a.karma + d } else a,
    List.mem_map_of_mem _ hmem, ?_⟩
  by_cases hc : (a.id == aid) = true
  · rw [if_pos hc]
    exact hid
  · rw [if_neg hc]
    exact hid

/-- Decomposing membership in the karma update. -/
theorem mem_updateKarma (l : List Agent) (aid : String) (d : Int) (a' : Agent)
    (h : a' ∈ updateKarma l aid d) :
    ∃ a ∈ l, a' = if a.id == aid then { a with karma := a.karma + d } else a := by
  obtain ⟨a, hmem, heq⟩ := List.mem_map.mp h
  exact ⟨a, hmem, heq.symm⟩

/-- Ids survive the pinned update. -/
theorem exists_id_setPinned (l : List Post) (qid : String) (b : Bool)
    (x : String) (h : ∃ p ∈ l, p.id = x) :
    ∃ p ∈ setPinned l qid b, p.id = x := by
  obtain ⟨p, hmem, hid⟩ := h
  refine ⟨if p.id == qid then { p with pinned := b } else p,
    List.mem_map_of_mem _ hmem, ?_⟩
  by_cases hc : (p.id == qid) = true
  · rw [if_pos hc]
    exact hid
  · rw [if_neg hc]
    exact hid

/-- Every row of the pinned update is an original row with the flag
possibly flipped, keeping id and author. -/
theorem mem_setPinned (l : List Post) (qid : String) (b : Bool) (p' : Post)
    (h : p' ∈ setPinned l qid b) :
    ∃ p ∈ l, p'.agentId = p.agentId ∧ p'.id = p.id := by
  obtain ⟨p, hmem, heq⟩ := List.mem_map.mp h
  refine ⟨p, hmem, ?_, ?_⟩ <;> rw [← heq] <;>
    by_cases hc : (p.id == qid) = true <;> simp [hc]

/-- An agent authoring no post collects no vote value. -/
theorem karmaFromVotes_of_no_posts (db : DB) (x : String)
    (h : ∀ p ∈ db.posts, p.agentId ≠ x) : karmaFromVotes db x = 0 := by
  have hnil : db.votes.filter (fun w => postAuthor db w.postId == some x) = [] := by
    rw [List.filter_eq_nil_iff]
    intro w hw hk
    unfold postAuthor findPost at hk
    cases hfp : db.posts.find? (fun p => p.id == w.postId) with
    | none =>
      rw [hfp] at hk
      simp at hk
    | some p =>
      rw [hfp] at hk
      have hmem := List.mem_of_find?_eq_some hfp
      have hax : p.agentId = x := by simpa using hk
      exact h p hmem hax
  unfold karmaFromVotes
  rw [hnil]
  rfl

/-- Route `POST /agents` succeeds only by appending a fresh karma-0 row. -/
theorem createAgent_ok_inv (db : DB) (id name : String) (a : Agent) (db' : DB)
    (h : createAgent db id name = .ok (a, db')) :
    db.agents.any (fun w => w.id == id) = false ∧
    db' = { db with agents := db.agents ++ [⟨id, name, 0⟩] } := by
  unfold createAgent at h
  split at h
  · exact Except.noConfusion h
  split at h
  · exact Except.noConfusion h
  split at h
  · exact Except.noConfusion h
  split at h
  · exact Except.noConfusion h
  · rename_i hfresh
    injection h with h2
    rw [Prod.mk.injEq] at h2
    exact ⟨by simpa using hfresh, h2.2.symm⟩

/-- Route `POST /subclaws` leaves agents, posts and votes alone. -/
theorem createSubclaw_core (db : DB) (rid id name : String) (r : Subclaw)
    (db' : DB) (h : createSubclaw db rid id name = .ok (r, db')) :
    db'.agents = db.agents ∧ db'.posts = db.posts ∧ db'.votes = db.votes := by
  unfold createSubclaw at h
  split at h
  · exact Except.noConfusion h
  split at h
  · exact Except.noConfusion h
  split at h
  · exact Except.noConfusion h
  split at h
  · exact Except.noConfusion h
  · injection h with h2
    rw [Prod.mk.injEq] at h2
    rw [← h2.2]
    exact ⟨rfl, rfl, rfl⟩

/-- Route `POST /posts` succeeds only by appending a fresh unpinned post authored
by the requester. -/
theorem createPost_ok_inv (db : DB) (rid id : String) (scn : Option String)
    (content : String) (r : Post) (db' : DB)
    (h : createPost db rid id scn content = .ok (r, db')) :
    db.posts.any (fun p => p.id == id) = false ∧
    ∃ scid : Option String,
      db' = { db with posts := db.posts ++ [⟨id, rid, scid, false⟩] } := by
  unfold createPost at h
  by_cases hval : (content.length < 1 ∨ 2000 < content.length)
  · rw [if_pos hval] at h
    exact Except.noConfusion h
  · rw [if_neg hval] at h
    cases scn with
    | none =>
      have h2 : (if (db.posts.any fun p => p.id == id) = true then
            (Except.error ⟨500, "UNIQUE constraint failed: posts.id"⟩ :
              Except ErrResp (Post × DB))
          else .ok ((⟨id, rid, none, false⟩ : Post),
            { db with posts := db.posts ++ [⟨id, rid, none, false⟩] })) =
          .ok (r, db') := h
      by_cases hfresh : (db.posts.any fun p => p.id == id) = true
      · rw [if_pos hfresh] at h2
        exact Except.noConfusion h2
      · rw [if_neg hfresh] at h2
        injection h2 with h3
        rw [Prod.mk.injEq] at h3
        exact ⟨by simpa using hfresh, none, h3.2.symm⟩
    | some scn =>
      have hh : (let resolved : Except ErrResp (Option String) :=
            match findSubclawByName db scn with
            | none => .error ⟨404, s!"Subclaw c/{scn} not found"⟩
            | some sc => .ok (some sc.id)
          (match resolved with
          | Except.error e => Except.error e
          | Except.ok scid =>
            if (db.posts.any fun p => p.id == id) = true then
              Except.error ⟨500, "UNIQUE constraint failed: posts.id"⟩
            else Except.ok ((⟨id, rid, scid, false⟩ : Post),
              { db with posts := db.posts ++ [⟨id, rid, scid, false⟩] }) :
            Except ErrResp (Post × DB))) =
          .ok (r, db') := h
      cases hfs : findSubclawByName db scn with
      | none =>
        rw [hfs] at hh
        exact Except.noConfusion hh
      | some sc =>
        rw [hfs] at hh
        have h2 : (if (db.posts.any fun p => p.id == id) = true then
              (Except.error ⟨500, "UNIQUE constraint failed: posts.id"⟩ :
                Except ErrResp (Post × DB))
            else .ok ((⟨id, rid, some sc.id, false⟩ : Post),
              { db with posts := db.posts ++ [⟨id, rid, some sc.id, false⟩] })) =
            .ok (r, db') := hh
        by_cases hfresh : (db.posts.any fun p => p.id == id) = true
        · rw [if_pos hfresh] at h2
          exact Except.noConfusion h2
        · rw [if_neg hfresh] at h2
          injection h2 with h3
          rw [Prod.mk.injEq] at h3
          exact ⟨by simpa using hfresh, some sc.id, h3.2.symm⟩

/-- Route `POST /subclaws/:name/moderators` leaves agents, posts and votes
alone. -/
theorem addModerator_core (db : DB) (rid scn : String) (an : Option String)
    (r : SuccessResp) (db' : DB) (h : addModerator db rid scn an = .ok (r, db')) :
    db'.agents = db.agents ∧ db'.posts = db.posts ∧ db'.votes = db.votes := by
  unfold addModerator at h
  split at h
  · exact Except.noConfusion h
  split at h
  · exact Except.noConfusion h
  split at h
  · exact Except.noConfusion h
  split at h
  · exact Except.noConfusion h
  split at h
  · exact Except.noConfusion h
  split at h
  · exact Except.noConfusion h
  split at h
  · exact Except.noConfusion h
  · injection h with h2
    rw [Prod.mk.injEq] at h2
    rw [← h2.2]
    exact ⟨rfl, rfl, rfl⟩

/-- Route `DELETE /subclaws/:name/moderators/:agent` leaves agents, posts and
votes alone. -/
theorem removeModerator_core (db : DB) (rid scn an : String)
    (r : SuccessResp) (db' : DB)
    (h : removeModerator db rid scn an = .ok (r, db')) :
    db'.agents = db.agents ∧ db'.posts = db.posts ∧ db'.votes = db.votes := by
  unfold removeModerator at h
  split at h
  · exact Except.noConfusion h
  split at h
  · exact Except.noConfusion h
  split at h
  · exact Except.noConfusion h
  · injection h with h2
    rw [Prod.mk.injEq] at h2
    rw [← h2.2]
    exact ⟨rfl, rfl, rfl⟩

/-- A successful pin only flips the pinned flag of the target. -/
theorem pinPost_core (db : DB) (rid pid : String) (r : SuccessResp) (db' : DB)
    (h : pinPost db rid pid = .ok (r, db')) :
    db' = { db with posts := setPinned db.posts pid true } := by
  cases hfp : findPost db pid with
  | none => simp [pinPost, hfp] at h
  | some post =>
    cases hsc : post.subclawId with
    | none => simp [pinPost, hfp, hsc] at h
    | some scid =>
      simp only [pinPost, hfp, hsc] at h
      by_cases hauth : ((findSubclawById db scid).bind (·.creatorId) ≠ some rid ∧
          ¬ isModOf db scid rid)
      · rw [if_pos hauth] at h
        exact Except.noConfusion h
      · rw [if_neg hauth] at h
        by_cases hcnt : pinnedCount db scid ≥ 3
        · rw [if_pos hcnt] at h
          exact Except.noConfusion h
        · rw [if_neg hcnt] at h
          injection h with h2
          rw [Prod.mk.injEq] at h2
          exact h2.2.symm

/-- A successful unpin only flips the pinned flag of the target. -/
theorem unpinPost_core (db : DB) (rid pid : String) (r : SuccessResp)
    (db' : DB) (h : unpinPost db rid pid = .ok (r, db')) :
    db' = { db with posts := setPinned db.posts pid false } := by
  cases hfp : findPost db pid with
  | none => simp [unpinPost, hfp] at h
  | some post =>
    cases hsc : post.subclawId with
    | none =>
      simp only [unpinPost, hfp, hsc] at h
      by_cases hcond : ((Option.none.bind
            (fun scid => (findSubclawById db scid).bind (·.creatorId)) :
            Option String) ≠ some rid ∧ ¬ (false : Bool))
      · rw [if_pos hcond] at h
        exact Except.noConfusion h
      · rw [if_neg hcond] at h
        injection h with h2
        rw [Prod.mk.injEq] at h2
        exact h2.2.symm
    | some scid =>
      simp only [unpinPost, hfp, hsc] at h
      by_cases hcond : ((Option.some scid).bind
            (fun scid => (findSubclawById db scid).bind (·.creatorId)) ≠ some rid ∧
          ¬ isModOf db scid rid)
      · rw [if_pos hcond] at h
        exact Except.noConfusion h
      · rw [if_neg hcond] at h
        injection h with h2
        rw [Prod.mk.injEq] at h2
        exact h2.2.symm

/-- A successful vote ends in `voteStep` at the actual post author, with a
valid value. -/
theorem applyVote_core (db : DB) (rid pid : String) (v : Int) (r : VoteResp)
    (db' : DB) (h : applyVote db rid pid v = .ok (r, db')) :
    ∃ post, findPost db pid = some post ∧ (v = 1 ∨ v = -1 ∨ v = 0) ∧
      db' = voteStep db rid pid v post.agentId := by
  by_cases hc : v ≠ 1 ∧ v ≠ -1 ∧ v ≠ 0
  · exfalso
    unfold applyVote at h
    rw [if_pos hc] at h
    exact Except.noConfusion h
  · have hv : v = 1 ∨ v = -1 ∨ v = 0 := by tauto
    cases hfp : findPost db pid with
    | none =>
      exfalso
      unfold applyVote at h
      rw [if_neg hc, hfp] at h
      exact Except.noConfusion h
    | some post =>
      rw [applyVote_ok db rid pid v post hfp hv] at h
      injection h with h2
      rw [Prod.mk.injEq] at h2
      exact ⟨post, rfl, hv, h2.2.symm⟩

/-- The pinned update keeps the id column. -/
theorem setPinned_map_id (posts : List Post) (pid : String) (b : Bool) :
    (setPinned posts pid b).map (·.id) = posts.map (·.id) := by
  unfold setPinned
  rw [List.map_map]
  refine List.map_congr_left fun p _ => ?_
  show ((fun x => x.id) ∘ fun p => if p.id == pid then { p with pinned := b } else p) p = p.id
  by_cases hc : (p.id == pid) = true <;> simp [Function.comp, hc]

/-- The pinned update keeps post authorship. -/
theorem postAuthor_setPinned (db : DB) (qid : String) (b : Bool) (pid : String) :
    postAuthor { db with posts := setPinned db.posts qid b } pid =
      postAuthor db pid := by
  unfold postAuthor findPost
  show ((setPinned db.posts qid b).find? (fun p => p.id == pid)).map (fun p => p.agentId) =
    (db.posts.find? (fun p => p.id == pid)).map (fun p => p.agentId)
  rw [findPost_setPinned]
  cases db.posts.find? (fun p => p.id == pid) with
  | none => rfl
  | some p =>
    simp only [Option.map_some', Option.some.injEq]
    split <;> rfl

/-- The pinned update moves no karma mass. -/
theorem karmaFromVotes_setPinned (db : DB) (qid : String) (b : Bool)
    (x : String) :
    karmaFromVotes { db with posts := setPinned db.posts qid b } x =
      karmaFromVotes db x := by
  unfold karmaFromVotes
  show ((db.votes.filter (fun w =>
      postAuthor { db with posts := setPinned db.posts qid b } w.postId ==
        some x)).map (fun w => w.value)).sum =
    ((db.votes.filter (fun w => postAuthor db w.postId == some x)).map
      (fun w => w.value)).sum
  rw [List.filter_congr fun w _ => by rw [postAuthor_setPinned]]

/-- Pinning or unpinning preserves the bundle. -/
theorem inv_setPinned (db : DB) (pid : String) (b : Bool) (h : Inv db) :
    Inv { db with posts := setPinned db.posts pid b } := by
  constructor
  · show ((setPinned db.posts pid b).map (·.id)).Nodup
    rw [setPinned_map_id]
    exact h.postsNodup
  · exact h.votesNodup
  · intro w hw
    exact exists_id_setPinned db.posts pid b w.postId (h.votePostExists w hw)
  · intro p' hp'
    obtain ⟨p, hp, hag, _⟩ := mem_setPinned db.posts pid b p' hp'
    obtain ⟨a, ha, haid⟩ := h.postAuthorExists p hp
    exact ⟨a, ha, by rw [haid, hag]⟩
  · intro a ha
    show a.karma = karmaFromVotes { db with posts := setPinned db.posts pid b } a.id
    rw [karmaFromVotes_setPinned]
    exact h.karma a ha

/-- Creating an agent preserves the bundle: a fresh id owns no posts, so
karma 0 matches an empty vote sum. -/
theorem inv_createAgent (db : DB) (id name : String)
    (hfresh : db.agents.any (fun w => w.id == id) = false) (h : Inv db) :
    Inv { db with agents := db.agents ++ [⟨id, name, 0⟩] } := by
  have hnew : ∀ p ∈ db.posts, p.agentId ≠ id := by
    intro p hp he
    obtain ⟨a, ha, haid⟩ := h.postAuthorExists p hp
    have hta : db.agents.any (fun w => w.id == id) = true :=
      List.any_eq_true.mpr ⟨a, ha, by simp [haid, he]⟩
    rw [hfresh] at hta
    exact Bool.noConfusion hta
  constructor
  · exact h.postsNodup
  · exact h.votesNodup
  · exact h.votePostExists
  · intro p hp
    obtain ⟨a, ha, haid⟩ := h.postAuthorExists p hp
    exact ⟨a, List.mem_append_left _ ha, haid⟩
  · intro a ha
    show a.karma =
      karmaFromVotes { db with agents := db.agents ++ [⟨id, name, 0⟩] } a.id
    have hkeq : karmaFromVotes
        { db with agents := db.agents ++ [⟨id, name, 0⟩] } a.id =
        karmaFromVotes db a.id := rfl
    rw [hkeq]
    rcases List.mem_append.mp ha with hold | hnew2
    · exact h.karma a hold
    · have ha2 : a = ⟨id, name, 0⟩ := by simpa using hnew2
      subst ha2
      show (0 : Int) = karmaFromVotes db id
      rw [karmaFromVotes_of_no_posts db id hnew]

/-- Creating a post preserves the bundle: the new post is fresh, unpinned,
authored by the authenticated agent, and carries no votes yet. -/
theorem inv_createPost (db : DB) (rid id : String) (scid : Option String)
    (hfresh : db.posts.any (fun p => p.id == id) = false)
    (hauth : authOk db rid = true) (h : Inv db) :
    Inv { db with posts := db.posts ++ [⟨id, rid, scid, false⟩] } := by
  have hid_not : id ∉ db.posts.map (·.id) := by
    intro hmem
    obtain ⟨p, hp, hpe⟩ := List.mem_map.mp hmem
    have hta : db.posts.any (fun p => p.id == id) = true :=
      List.any_eq_true.mpr ⟨p, hp, by simp [hpe]⟩
    rw [hfresh] at hta
    exact Bool.noConfusion hta
  have hfind_pres : ∀ pid',
      (db.posts.find? (fun p => p.id == pid')).isSome →
      (db.posts ++ [(⟨id, rid, scid, false⟩ : Post)]).find?
        (fun p => p.id == pid') = db.posts.find? (fun p => p.id == pid') := by
    intro pid' hs
    rw [List.find?_append]
    obtain ⟨q, hq⟩ := Option.isSome_iff_exists.mp hs
    rw [hq]
    rfl
  constructor
  · show ((db.posts ++ [(⟨id, rid, scid, false⟩ : Post)]).map (·.id)).Nodup
    rw [List.map_append]
    refine List.Nodup.append h.postsNodup (List.nodup_singleton _) ?_
    simpa [List.disjoint_singleton] using hid_not
  · exact h.votesNodup
  · intro w hw
    obtain ⟨p, hp, hpid⟩ := h.votePostExists w hw
    exact ⟨p, List.mem_append_left _ hp, hpid⟩
  · intro p hp
    rcases List.mem_append.mp hp with hold | hsing
    · exact h.postAuthorExists p hold
    · have hp2 : p = ⟨id, rid, scid, false⟩ := by simpa using hsing
      subst hp2
      obtain ⟨a, ha, haid⟩ := List.any_eq_true.mp hauth
      exact ⟨a, ha, by simpa using haid⟩
  · intro a ha
    have hfilter : db.votes.filter (fun w =>
        postAuthor { db with posts := db.posts ++ [(⟨id, rid, scid, false⟩ : Post)] }
          w.postId == some a.id) =
        db.votes.filter (fun w => postAuthor db w.postId == some a.id) := by
      refine List.filter_congr fun w hw => ?_
      obtain ⟨p, hp, hpid⟩ := h.votePostExists w hw
      have hsome : (db.posts.find? (fun q => q.id == w.postId)).isSome :=
        List.find?_isSome.mpr ⟨p, hp, by simp [hpid]⟩
      have hpa : postAuthor
          { db with posts := db.posts ++ [(⟨id, rid, scid, false⟩ : Post)] }
            w.postId = postAuthor db w.postId := by
        unfold postAuthor findPost
        show ((db.posts ++ [(⟨id, rid, scid, false⟩ : Post)]).find?
          (fun q => q.id == w.postId)).map (fun q => q.agentId) =
          (db.posts.find? (fun q => q.id == w.postId)).map (fun q => q.agentId)
        rw [hfind_pres w.postId hsome]
      rw [hpa]
    show a.karma = karmaFromVotes
      { db with posts := db.posts ++ [(⟨id, rid, scid, false⟩ : Post)] } a.id
    unfold karmaFromVotes
    show a.karma = ((db.votes.filter (fun w =>
      postAuthor { db with posts := db.posts ++ [(⟨id, rid, scid, false⟩ : Post)] }
        w.postId == some a.id)).map (fun w => w.value)).sum
    rw [hfilter]
    exact h.karma a ha

/-- The agents table of a vote step, spelled out. -/
theorem voteStep_agents (db : DB) (aid pid : String) (v : Int) (a : String) :
    (voteStep db aid pid v a).agents =
      if v - oldVoteValue db aid pid ≠ 0
      then updateKarma db.agents a (v - oldVoteValue db aid pid)
      else db.agents := rfl

/-- A vote on an existing post preserves the bundle. -/
theorem inv_voteStep (db : DB) (rid pid : String) (v : Int) (post : Post)
    (hfp : findPost db pid = some post) (h : Inv db) :
    Inv (voteStep db rid pid v post.agentId) := by
  have hfp' : db.posts.find? (fun p => p.id == pid) = some post := hfp
  have hpostmem : post ∈ db.posts := List.mem_of_find?_eq_some hfp'
  have hpostid : post.id = pid := by
    have hkey := List.find?_some hfp'
    simpa using hkey
  constructor
  · exact h.postsNodup
  · show ((voteStep db rid pid v post.agentId).votes.map
        (fun w => (w.agentId, w.postId))).Nodup
    rw [voteStep_votes]
    by_cases hv0 : v = 0
    · rw [if_pos hv0]
      exact h.votesNodup.sublist (List.Sublist.map _ (List.filter_sublist _))
    · rw [if_neg hv0]
      unfold upsertVote
      rw [List.map_append]
      have hnotin : (rid, pid) ∉
          (deleteVote db.votes rid pid).map (fun w => (w.agentId, w.postId)) := by
        intro hmem
        obtain ⟨w, hw, heq⟩ := List.mem_map.mp hmem
        have hkey := not_key_of_mem_deleteVote db.votes rid pid w hw
        have h1 : w.agentId = rid := congrArg Prod.fst heq
        have h2 : w.postId = pid := congrArg Prod.snd heq
        rw [h1, h2] at hkey
        simp at hkey
      refine List.Nodup.append
        (h.votesNodup.sublist (List.Sublist.map _ (List.filter_sublist _)))
        (List.nodup_singleton _) ?_
      simpa [List.disjoint_singleton] using hnotin
  · intro w hw
    show ∃ p ∈ db.posts, p.id = w.postId
    have hw' : w ∈ (if v = 0 then deleteVote db.votes rid pid
        else upsertVote db.votes rid pid v) := hw
    by_cases hv0 : v = 0
    · rw [if_pos hv0] at hw'
      exact h.votePostExists w (List.mem_of_mem_filter hw')
    · rw [if_neg hv0] at hw'
      unfold upsertVote at hw'
      rcases List.mem_append.mp hw' with hdel | hsing
      · exact h.votePostExists w (List.mem_of_mem_filter hdel)
      · have hwv : w = ⟨rid, pid, v⟩ := by simpa using hsing
        subst hwv
        exact ⟨post, hpostmem, hpostid⟩
  · intro p hp
    have hex := h.postAuthorExists p hp
    show ∃ a ∈ (voteStep db rid pid v post.agentId).agents, a.id = p.agentId
    rw [voteStep_agents]
    by_cases hd : v - oldVoteValue db rid pid ≠ 0
    · rw [if_pos hd]
      exact exists_id_updateKarma db.agents post.agentId _ p.agentId hex
    · rw [if_neg hd]
      exact hex
  · intro a' ha'
    have hkfv := karmaFromVotes_voteStep db rid pid v post.agentId a'.id
      h.votesNodup
    show a'.karma = karmaFromVotes (voteStep db rid pid v post.agentId) a'.id
    rw [hkfv]
    have hpa : postAuthor db pid = some post.agentId := by
      unfold postAuthor
      rw [hfp]
      rfl
    rw [hpa]
    have ha2 : a' ∈ (if v - oldVoteValue db rid pid ≠ 0
        then updateKarma db.agents post.agentId (v - oldVoteValue db rid pid)
        else db.agents) := ha'
    by_cases hd : v - oldVoteValue db rid pid ≠ 0
    · rw [if_pos hd] at ha2
      obtain ⟨a, hmem, haeq⟩ := mem_updateKarma db.agents post.agentId _ a' ha2
      have hk := h.karma a hmem
      by_cases hc : (a.id == post.agentId) = true
      · rw [if_pos hc] at haeq
        subst haeq
        have hcid : a.id = post.agentId := by simpa using hc
        have hcond : (some post.agentId ==
            some ({ a with karma := a.karma + (v - oldVoteValue db rid pid) } :
              Agent).id) = true := by
          show (some post.agentId == some a.id) = true
          simp [hcid]
        rw [if_pos hcond]
        show a.karma + (v - oldVoteValue db rid pid) =
          karmaFromVotes db a.id + (v - oldVoteValue db rid pid)
        rw [hk]
      · rw [if_neg hc] at haeq
        subst haeq
        have hcond : ¬ ((some post.agentId == some a'.id) = true) := by
          intro hcc
          have hcc2 : post.agentId = a'.id := by simpa using hcc
          exact hc (by simp [hcc2])
        rw [if_neg hcond]
        show a'.karma = karmaFromVotes db a'.id + 0
        rw [hk]
        omega
    · rw [if_neg hd] at ha2
      push_neg at hd
      have hk := h.karma a' ha2
      by_cases hc : (some post.agentId == some a'.id) = true
      · rw [if_pos hc, hd, hk]
        omega
      · rw [if_neg hc, hk]
        omega

/-- Every request preserves the bundle. -/
theorem step_preserves (db : DB) (op : Op) (h : Inv db) : Inv (step db op) := by
  cases op with
  | createAgent id name =>
    show Inv (keepOk db (createAgent db id name))
    cases hc : createAgent db id name with
    | error e => exact h
    | ok rdb =>
      obtain ⟨r, db'⟩ := rdb
      obtain ⟨hfresh, hdb⟩ := createAgent_ok_inv db id name r db' hc
      show Inv db'
      rw [hdb]
      exact inv_createAgent db id name hfresh h
  | createSubclaw rid id name =>
    show Inv (if authOk db rid then keepOk db (createSubclaw db rid id name)
      else db)
    by_cases hauth : authOk db rid = true
    · rw [if_pos hauth]
      cases hc : createSubclaw db rid id name with
      | error e => exact h
      | ok rdb =>
        obtain ⟨r, db'⟩ := rdb
        obtain ⟨ha, hp, hv⟩ := createSubclaw_core db rid id name r db' hc
        exact inv_of_same_core db db' ha hp hv h
    · rw [if_neg hauth]
      exact h
  | createPost rid id scn content =>
    show Inv (if authOk db rid then
      keepOk db (createPost db rid id scn content) else db)
    by_cases hauth : authOk db rid = true
    · rw [if_pos hauth]
      cases hc : createPost db rid id scn content with
      | error e => exact h
      | ok rdb =>
        obtain ⟨r, db'⟩ := rdb
        obtain ⟨hfresh, scid, hdb⟩ := createPost_ok_inv db rid id scn content
          r db' hc
        show Inv db'
        rw [hdb]
        exact inv_createPost db rid id scid hfresh hauth h
    · rw [if_neg hauth]
      exact h
  | vote rid pid v =>
    show Inv (if authOk db rid then keepOk db (applyVote db rid pid v) else db)
    by_cases hauth : authOk db rid = true
    · rw [if_pos hauth]
      cases hc : applyVote db rid pid v with
      | error e => exact h
      | ok rdb =>
        obtain ⟨r, db'⟩ := rdb
        obtain ⟨post, hfp, hv, hdb⟩ := applyVote_core db rid pid v r db' hc
        show Inv db'
        rw [hdb]
        exact inv_voteStep db rid pid v post hfp h
    · rw [if_neg hauth]
      exact h
  | pin rid pid =>
    show Inv (if authOk db rid then keepOk db (pinPost db rid pid) else db)
    by_cases hauth : authOk db rid = true
    · rw [if_pos hauth]
      cases hc : pinPost db rid pid with
      | error e => exact h
      | ok rdb =>
        obtain ⟨r, db'⟩ := rdb
        have hdb := pinPost_core db rid pid r db' hc
        show Inv db'
        rw [hdb]
        exact inv_setPinned db pid true h
    · rw [if_neg hauth]
      exact h
  | unpin rid pid =>
    show Inv (if authOk db rid then keepOk db (unpinPost db rid pid) else db)
    by_cases hauth : authOk db rid = true
    · rw [if_pos hauth]
      cases hc : unpinPost db rid pid with
      | error e => exact h
      | ok rdb =>
        obtain ⟨r, db'⟩ := rdb
        have hdb := unpinPost_core db rid pid r db' hc
        show Inv db'
        rw [hdb]
        exact inv_setPinned db pid false h
    · rw [if_neg hauth]
      exact h
  | addMod rid scn an =>
    show Inv (if authOk db rid then keepOk db (addModerator db rid scn an)
      else db)
    by_cases hauth : authOk db rid = true
    · rw [if_pos hauth]
      cases hc : addModerator db rid scn an with
      | error e => exact h
      | ok rdb =>
        obtain ⟨r, db'⟩ := rdb
        obtain ⟨ha, hp, hv⟩ := addModerator_core db rid scn an r db' hc
        exact inv_of_same_core db db' ha hp hv h
    · rw [if_neg hauth]
      exact h
  | removeMod rid scn an =>
    show Inv (if authOk db rid then
      keepOk db (removeModerator db rid scn an) else db)
    by_cases hauth : authOk db rid = true
    · rw [if_pos hauth]
      cases hc : removeModerator db rid scn an with
      | error e => exact h
      | ok rdb =>
        obtain ⟨r, db'⟩ := rdb
        obtain ⟨ha, hp, hv⟩ := removeModerator_core db rid scn an r db' hc
        exact inv_of_same_core db db' ha hp hv h
    · rw [if_neg hauth]
      exact h

/-- The freshly bootstrapped database satisfies the bundle. -/
theorem inv_empty : Inv DB.empty := by
  constructor
  · show (([] : List Post).map (·.id)).Nodup
    simp
  · show (([] : List Vote).map (fun w => (w.agentId, w.postId))).Nodup
    simp
  · intro w hw
    exact absurd hw (List.not_mem_nil w)
  · intro p hp
    exact absurd hp (List.not_mem_nil p)
  · intro a ha
    exact absurd ha (List.not_mem_nil a)

/-- The bundle holds along every run. -/
theorem inv_foldl (ops : List Op) : ∀ db : DB, Inv db → Inv (ops.foldl step db) := by
  induction ops with
  | nil =>
    intro db h
    exact h
  | cons op t ih =>
    intro db h
    exact ih (step db op) (step_preserves db op h)

/-- C1: in every state reachable by any sequence of requests from the
freshly bootstrapped database (all agents created with karma 0), each
agent's karma equals the sum of the vote values currently stored for the
posts it authored — the accumulated vote deltas never drift from the vote
table in the sequential model. -/
theorem karma_invariant_reachable (ops : List Op) :
    karmaInvariant (runOps ops) :=
  (inv_foldl ops DB.empty inv_empty).karma

end DeepClaw
